import Mathlib

/-!
# rebound: the shared-library driver `librebound.c`

A shallow embedding of `src/librebound.c` (`rebound_step`, `reset`, `integrate`)
and theorems about the driving loop: finish time, overshoot, the escape and
close-encounter scans, the zero-particle path, the exit protocol and `reset`.

Conventions of the embedding.

* C `double` values are rationals (`ℚ`): exact arithmetic, no rounding.
* C `int` values are `Int` (no value in the driver comes near the 32-bit range).
* The globals of the process are the fields of `Sim`.
* The integrator, the gravity evaluator and the force hook are not part of
  `librebound.c`; what they do to the particle array is a parameter
  (`Externals`), and every call of one of them is recorded in `Sim.log`.
* `while` loops over time carry a fuel argument: `none` means the fuel ran out.
-/

namespace Rebound

/-- Modelled from the spec: `struct particle` (declared in `particle.h`, which is
not among the sources): mass, position, velocity and acceleration, the ten
fields that `problem.c` assigns. -/
structure Particle where
  x : ℚ
  y : ℚ
  z : ℚ
  vx : ℚ
  vy : ℚ
  vz : ℚ
  ax : ℚ
  ay : ℚ
  az : ℚ
  m : ℚ
deriving DecidableEq

/-- The particle read at an index outside the array (undefined behaviour in C). -/
def Particle.zero : Particle := ⟨0, 0, 0, 0, 0, 0, 0, 0, 0, 0⟩

/-- Calls that leave `librebound.c`, in the order they are made. -/
inductive Op where
  | part1
  | gravity
  | variational
  | forces
  | part2
  | synchronize
  | integrator_reset
  | srand
deriving DecidableEq

/-- The global variables read or written by `librebound.c`. The function pointer
`problem_additional_forces` is `none` for `NULL` and `some cb` for the address
`cb` of a callback. -/
structure Sim where
  dt : ℚ
  t : ℚ
  tmax : ℚ
  G : ℚ
  softening : ℚ
  timing : ℚ
  closeEncounterPi : Int
  closeEncounterPj : Int
  N : Int
  Nmax : Int
  N_active : Int
  N_megno : Int
  iter : Int
  particles : List Particle
  problem_additional_forces : Option Nat
  integrator : Int
  integrator_whfast_synchronize_manually : Int
  integrator_whfast_persistent_particles : Int
  integrator_whfast_particles_modified : Int
  integrator_force_is_velocitydependent : Int
  log : List Op
deriving DecidableEq

/-- The initial values of the globals of `librebound.c` (lines 44-58), with an
empty particle store. -/
def Sim.initial : Sim :=
  { dt := 1 / 100, t := 0, tmax := 0, G := 1, softening := 0, timing := 0,
    closeEncounterPi := -1, closeEncounterPj := -1,
    N := 0, Nmax := 0, N_active := -1, N_megno := 0, iter := 0,
    particles := [], problem_additional_forces := none, integrator := 0,
    integrator_whfast_synchronize_manually := 0,
    integrator_whfast_persistent_particles := 0,
    integrator_whfast_particles_modified := 0,
    integrator_force_is_velocitydependent := 0,
    log := [] }

/-- The code outside `librebound.c` that the driver calls: what each call makes
of the particle array (as a function of the whole state), the callback behind
each function-pointer value, and the two wall-clock samples of a call. -/
structure Externals where
  part1 : Sim → List Particle
  gravity : Sim → List Particle
  variational : Sim → List Particle
  forces : Nat → Sim → List Particle
  part2 : Sim → List Particle
  synchronize : Sim → List Particle
  timing_initial : ℚ
  timing_final : ℚ

/-- Modelled from the spec: `integrator_part1` (integrator.c is not among the
sources): the pre-force half of a timestep; it may rewrite the particles. -/
def integrator_part1 (E : Externals) (s : Sim) : Sim :=
  { s with particles := E.part1 s, log := s.log ++ [Op.part1] }

/-- Modelled from the spec: `gravity_calculate_acceleration` (gravity.c is not
among the sources): recomputes the accelerations stored in the particles. -/
def gravity_calculate_acceleration (E : Externals) (s : Sim) : Sim :=
  { s with particles := E.gravity s, log := s.log ++ [Op.gravity] }

/-- Modelled from the spec: `gravity_calculate_variational_acceleration`
(gravity.c is not among the sources): the pass over the shadow particles. -/
def gravity_calculate_variational_acceleration (E : Externals) (s : Sim) : Sim :=
  { s with particles := E.variational s, log := s.log ++ [Op.variational] }

/-- The statement `if (problem_additional_forces) problem_additional_forces();`. -/
def call_additional_forces (E : Externals) (s : Sim) : Sim :=
  match s.problem_additional_forces with
  | none => s
  | some cb => { s with particles := E.forces cb s, log := s.log ++ [Op.forces] }

/-- Modelled from the spec: `integrator_part2` (integrator.c is not among the
sources): the post-force half of a timestep. It completes the cycle: the time
has advanced by the current `dt`, and `dt` is left as it was. -/
def integrator_part2 (E : Externals) (s : Sim) : Sim :=
  { s with particles := E.part2 s, t := s.t + s.dt, log := s.log ++ [Op.part2] }

/-- Modelled from the spec: `integrator_synchronize` (integrator.c is not among
the sources): turns the integrator's internal coordinates into valid positions
and velocities. -/
def integrator_synchronize (E : Externals) (s : Sim) : Sim :=
  { s with particles := E.synchronize s, log := s.log ++ [Op.synchronize] }

/-- Modelled from the spec: `integrator_reset` (integrator.c is not among the
sources): clears the integrator's cached state, not the particle store. -/
def integrator_reset (s : Sim) : Sim :=
  { s with log := s.log ++ [Op.integrator_reset] }

/-- One integration cycle, lines 85-91 and again lines 156-162. -/
def cycle (E : Externals) (s : Sim) : Sim :=
  let s := integrator_part1 E s
  let s := gravity_calculate_acceleration E s
  let s := if s.N_megno ≠ 0 then gravity_calculate_variational_acceleration E s else s
  let s := call_additional_forces E s
  integrator_part2 E s

/-- The function `rebound_step` (lines 77-95). -/
def rebound_step (E : Externals) (s : Sim) : Sim :=
  if s.N ≤ 0 then s
  else
    let s := cycle E s
    { s with timing := E.timing_final - E.timing_initial }

/-- The function `reset` (lines 102-120). -/
def reset (s : Sim) : Sim :=
  let s := { s with dt := 1 / 100, t := 0, tmax := 0, G := 1, softening := 0,
                    N := 0, Nmax := 0, N_active := -1, N_megno := 0, iter := 0,
                    timing := 0, particles := [] }
  let s := integrator_reset s
  { s with log := s.log ++ [Op.srand] }

/-- The local variables of `integrate` that live across loop iterations, next
to the globals. -/
structure Run where
  sim : Sim
  dt_last_done : ℚ
  last_step : Int
  ret_value : Int
deriving DecidableEq

/-- Number of iterations of `for (int i=0;i<N-N_megno;i++)`. -/
def Sim.nreal (s : Sim) : Nat := (s.N - s.N_megno).toNat

/-- The expression `p.x*p.x + p.y*p.y + p.z*p.z` of line 176. -/
def radius2 (p : Particle) : ℚ := p.x * p.x + p.y * p.y + p.z * p.z

/-- The expression `x*x + y*y + z*z` of line 192 for the particles `pi`, `pj`. -/
def dist2 (pi pj : Particle) : ℚ :=
  let x := pi.x - pj.x
  let y := pi.y - pj.y
  let z := pi.z - pj.z
  x * x + y * y + z * z

/-- Body of the escape loop (lines 175-179) at index `i`. -/
def escape_iter (maxR2 : ℚ) (r : Run) (i : Nat) : Run :=
  let p := r.sim.particles.getD i Particle.zero
  let r2 := radius2 p
  if r2 > maxR2 then { r with ret_value := 2 } else r

/-- The escape check, lines 171-181. -/
def escape_check (maxR : ℚ) (r : Run) : Run :=
  if maxR ≠ 0 then
    let maxR2 := maxR * maxR
    (List.range r.sim.nreal).foldl (escape_iter maxR2) r
  else r

/-- Body of the inner close-encounter loop (lines 188-197) at indices `i`, `j`;
`pi` is the copy of `particles[i]` taken at line 186. -/
def close_iter (minD2 : ℚ) (i : Nat) (pi : Particle) (r : Run) (j : Nat) : Run :=
  let pj := r.sim.particles.getD j Particle.zero
  let r2 := dist2 pi pj
  if r2 < minD2 then
    { r with ret_value := 3,
             sim := { r.sim with closeEncounterPi := (i : Int), closeEncounterPj := (j : Int) } }
  else r

/-- Body of the outer close-encounter loop (lines 186-198) at index `i`. -/
def close_outer (minD2 : ℚ) (r : Run) (i : Nat) : Run :=
  let pi := r.sim.particles.getD i Particle.zero
  (List.range i).foldl (close_iter minD2 i pi) r

/-- The close-encounter check, lines 182-200. -/
def close_check (minD : ℚ) (r : Run) : Run :=
  if minD ≠ 0 then
    let minD2 := minD * minD
    (List.range r.sim.nreal).foldl (close_outer minD2) r
  else r

/-- The exact-finish bookkeeping after a cycle, lines 164-170. -/
def finish_check (E : Externals) (exactFinishTime : Int) (r : Run) : Run :=
  if r.sim.t + r.sim.dt ≥ r.sim.tmax ∧ exactFinishTime = 1 then
    let s := integrator_synchronize E r.sim
    { r with sim := { s with dt := s.tmax - s.t }, last_step := r.last_step + 1 }
  else
    { r with dt_last_done := r.sim.dt }

/-- One iteration of the `while` loop past the particle-count test,
lines 156-200. -/
def loop_body (E : Externals) (exactFinishTime : Int) (maxR minD : ℚ) (r : Run) : Run :=
  let r := { r with sim := cycle E r.sim }
  let r := finish_check E exactFinishTime r
  let r := escape_check maxR r
  close_check minD r

/-- The loop condition of line 150. -/
def loop_cond (r : Run) : Prop :=
  r.sim.t < r.sim.tmax ∧ r.last_step < 2 ∧ r.ret_value = 0

instance (r : Run) : Decidable (loop_cond r) := by
  unfold loop_cond
  exact inferInstance

/-- The `while` loop of lines 150-201. Each evaluation of the loop condition
uses one unit of fuel; `none` means the fuel ran out before the loop ended. -/
def integrate_loop (E : Externals) (exactFinishTime : Int) (maxR minD : ℚ) :
    Nat → Run → Option Run
  | 0, _ => none
  | fuel + 1, r =>
    if loop_cond r then
      if r.sim.N ≤ 0 then some { r with ret_value := 1 }
      else integrate_loop E exactFinishTime maxR minD fuel
        (loop_body E exactFinishTime maxR minD r)
    else some r

/-- Lines 133-149 of `integrate`: everything before the loop. -/
def integrate_start (_tmax : ℚ) (keepSynchronized : Int) (s : Sim) : Run :=
  let s := { s with tmax := _tmax }
  let dt_last_done := s.dt
  let s := { s with integrator_whfast_particles_modified := 1 }
  let s :=
    if s.N_megno ≠ 0 ∨ keepSynchronized ≠ 0 then
      { s with integrator_whfast_synchronize_manually := 0,
               integrator_whfast_persistent_particles := 0 }
    else
      { s with integrator_whfast_synchronize_manually := 1,
               integrator_whfast_persistent_particles := 1 }
  let s :=
    if s.problem_additional_forces = none then
      { s with integrator_force_is_velocitydependent := 0 }
    else s
  { sim := s, dt_last_done := dt_last_done, last_step := 0, ret_value := 0 }

/-- Lines 202-209 of `integrate`: everything after the loop. The two arguments
are the locals `integrator_whfast_synchronize_manually_init` and
`integrator_whfast_persistent_particles_init`. -/
def integrate_finish (E : Externals) (synchronize_manually_init persistent_particles_init : Int)
    (r : Run) : Sim × Int :=
  let s := integrator_synchronize E r.sim
  let s := { s with dt := r.dt_last_done,
                    integrator_whfast_synchronize_manually := synchronize_manually_init,
                    integrator_whfast_persistent_particles := persistent_particles_init,
                    timing := E.timing_final - E.timing_initial }
  (s, r.ret_value)

/-- The function `integrate` (lines 129-210): the state on return and the
return value, or `none` when the loop has not ended within `fuel` tests. -/
def integrate (E : Externals) (fuel : Nat) (s : Sim) (_tmax : ℚ)
    (exactFinishTime keepSynchronized : Int) (maxR minD : ℚ) : Option (Sim × Int) :=
  (integrate_loop E exactFinishTime maxR minD fuel
      (integrate_start _tmax keepSynchronized s)).map
    (integrate_finish E s.integrator_whfast_synchronize_manually
      s.integrator_whfast_persistent_particles)

/-- An integrator that leaves the particle array as it is (particles at rest). -/
def Externals.still : Externals :=
  { part1 := fun s => s.particles, gravity := fun s => s.particles,
    variational := fun s => s.particles, forces := fun _ s => s.particles,
    part2 := fun s => s.particles, synchronize := fun s => s.particles,
    timing_initial := 0, timing_final := 0 }

/-- An integrator whose second half moves every particle along `x` by `dt * vx`
(free motion along one axis) and leaves the rest as it is. -/
def Externals.drift : Externals :=
  { Externals.still with
    part2 := fun s => s.particles.map (fun p => { p with x := p.x + s.dt * p.vx }) }

/-- A particle of unit mass at `(x, 0, 0)` with velocity `(vx, 0, 0)`. -/
def Particle.moving (x vx : ℚ) : Particle := ⟨x, 0, 0, vx, 0, 0, 0, 0, 0, 1⟩

/-- A particle at rest at the position `(x, y, z)` with unit mass. -/
def Particle.at (x y z : ℚ) : Particle := ⟨x, y, z, 0, 0, 0, 0, 0, 0, 1⟩

/-- The initial globals with the particles `ps` added and the timestep `dt`. -/
def Sim.ofParticles (ps : List Particle) (dt : ℚ) : Sim :=
  { Sim.initial with particles := ps, N := (ps.length : Int), dt := dt }

/-! ## Predicates and invariants used in the statements -/

/-- The state `r` with a close encounter of the pair `(i, j)` recorded. -/
def Run.found (r : Run) (i j : Nat) : Run :=
  { r with ret_value := 3,
           sim := { r.sim with closeEncounterPi := (i : Int), closeEncounterPj := (j : Int) } }

/-- The pair `(i, j)` of the array `ps` passes the test `r2<minD2` of line 193. -/
def ClosePair (minD2 : ℚ) (ps : List Particle) (i j : Nat) : Prop :=
  dist2 (ps.getD i Particle.zero) (ps.getD j Particle.zero) < minD2

/-- The particle `i` of the array `ps` passes the test `r2>maxR2` of line 177. -/
def Escaped (maxR2 : ℚ) (ps : List Particle) (i : Nat) : Prop :=
  radius2 (ps.getD i Particle.zero) > maxR2

instance (minD2 : ℚ) (ps : List Particle) (i j : Nat) : Decidable (ClosePair minD2 ps i j) := by
  unfold ClosePair
  exact inferInstance

instance (maxR2 : ℚ) (ps : List Particle) (i : Nat) : Decidable (Escaped maxR2 ps i) := by
  unfold Escaped
  exact inferInstance

/-- What the inner close-encounter loop over `j < k` makes of `r`: nothing when
no pair `(i, j)` passes the test, else the passing pair with the largest `j`. -/
def InnerResult (minD2 : ℚ) (ps : List Particle) (i k : Nat) (r r' : Run) : Prop :=
  ((∀ j, j < k → ¬ ClosePair minD2 ps i j) ∧ r' = r) ∨
  (∃ j, j < k ∧ ClosePair minD2 ps i j ∧
    (∀ j', j' < k → ClosePair minD2 ps i j' → j' ≤ j) ∧ r' = r.found i j)

/-- What the close-encounter scan over `i < n`, `j < i` makes of `r`: nothing when
no pair passes the test, else the passing pair that comes last in scan order. -/
def CloseResult (minD2 : ℚ) (ps : List Particle) (n : Nat) (r r' : Run) : Prop :=
  ((∀ i j, j < i → i < n → ¬ ClosePair minD2 ps i j) ∧ r' = r) ∨
  (∃ i j, j < i ∧ i < n ∧ ClosePair minD2 ps i j ∧
    (∀ i' j', j' < i' → i' < n → ClosePair minD2 ps i' j' → i' < i ∨ (i' = i ∧ j' ≤ j)) ∧
    r' = r.found i j)

/-- The state after the cycle and the exact-finish bookkeeping of one iteration,
before the scans. -/
def pre_scan (E : Externals) (exactFinishTime : Int) (r : Run) : Run :=
  finish_check E exactFinishTime { r with sim := cycle E r.sim }

/-- The loop state after `k` iterations of the loop body from `r`. -/
def steps (E : Externals) (exactFinishTime : Int) (maxR minD : ℚ) : Nat → Run → Run
  | 0, r => r
  | k + 1, r => steps E exactFinishTime maxR minD k (loop_body E exactFinishTime maxR minD r)

/-- From `r` the loop runs at least `k` iterations: before each of them the loop
condition holds and the particle count is positive. -/
def StepsTaken (E : Externals) (exactFinishTime : Int) (maxR minD : ℚ) (k : Nat) (r : Run) :
    Prop :=
  ∀ m, m < k → loop_cond (steps E exactFinishTime maxR minD m r) ∧
    0 < (steps E exactFinishTime maxR minD m r).sim.N

/-- Invariant of the loop for a call with `exactFinishTime = 1` that is entered
at or before `T` with a first step that does not pass `T`. -/
def LandsInv (T : ℚ) (r : Run) : Prop :=
  r.sim.tmax = T ∧ r.sim.t ≤ T ∧ (r.sim.t < T → r.sim.t + r.sim.dt ≤ T) ∧
  (1 ≤ r.last_step → r.sim.t + r.sim.dt = T ∨ r.sim.t = T) ∧
  (2 ≤ r.last_step → r.sim.t = T)

/-- Invariant of the loop for a call with `exactFinishTime = 0`: the timestep
stays `dt0`, and once the loop has been entered `t` is less than `dt0` past `T`. -/
def OvershootInv (t0 dt0 T : ℚ) (r : Run) : Prop :=
  r.sim.tmax = T ∧ r.last_step = 0 ∧ r.sim.dt = dt0 ∧
  (t0 < T → r.sim.t - T < dt0 ∨ r.sim.t < T)

/-- Invariant of the loop for the recorded pair: as long as the return value is
not 3 the recorded indices are those of `s0`; when it is 3 they are the pair of
real particles that passes the test and is last in scan order. -/
def ScanInv (s0 : Sim) (minD : ℚ) (r : Run) : Prop :=
  (r.ret_value ≠ 3 ∧ r.sim.closeEncounterPi = s0.closeEncounterPi ∧
    r.sim.closeEncounterPj = s0.closeEncounterPj) ∨
  (r.ret_value = 3 ∧ minD ≠ 0 ∧ ∃ i j : Nat, r.sim.closeEncounterPi = (i : Int) ∧
    r.sim.closeEncounterPj = (j : Int) ∧ j < i ∧ i < r.sim.nreal ∧
    ClosePair (minD * minD) r.sim.particles i j ∧
    (∀ i' j', j' < i' → i' < r.sim.nreal → ClosePair (minD * minD) r.sim.particles i' j' →
      i' < i ∨ (i' = i ∧ j' ≤ j)))

/-- Two particles at the same position. -/
def SamePos (p q : Particle) : Prop := p.x = q.x ∧ p.y = q.y ∧ p.z = q.z

/-- The state `r` with the particle array replaced by `qs`. -/
def Run.withParticles (r : Run) (qs : List Particle) : Run :=
  { r with sim := { r.sim with particles := qs } }

/-- A post-step state with one real particle at the origin and one shadow
particle at `(100, 0, 0)`: `N = 2`, `N_megno = 1`. -/
def shadowRun : Run :=
  { sim := { Sim.ofParticles [Particle.at 0 0 0, Particle.at 100 0 0] 1 with N_megno := 1 },
    dt_last_done := 1, last_step := 0, ret_value := 0 }

/-- Invariant of the loop for the timestep: `dt_last_done` stays `dt0`, and
while the loop can go on `dt` is `dt0` or the shrunk step that lands on `tmax`. -/
def DtInv (ex : Int) (dt0 : ℚ) (r : Run) : Prop :=
  r.dt_last_done = dt0 ∧
  (r.sim.t < r.sim.tmax → r.sim.dt = dt0 ∨ (ex = 1 ∧ r.sim.t + r.sim.dt = r.sim.tmax))

/-! ## Frame lemmas for one cycle and for the scans -/

theorem cycle_eq (E : Externals) (s : Sim) :
    ∃ ps l, cycle E s = { s with particles := ps, t := s.t + s.dt, log := s.log ++ l } ∧
      l.getLast? = some Op.part2 ∧ Op.part1 ∈ l := by
  unfold cycle call_additional_forces
  by_cases hm : s.N_megno ≠ 0 <;> cases hf : s.problem_additional_forces <;>
    simp [integrator_part1, gravity_calculate_acceleration,
      gravity_calculate_variational_acceleration, integrator_part2, hm, hf] <;>
    refine ⟨_, _, ⟨rfl, rfl⟩, ?_⟩ <;> simp

theorem found_found (r : Run) (i j i' j' : Nat) : (r.found i j).found i' j' = r.found i' j' := rfl

theorem found_particles (r : Run) (i j : Nat) : (r.found i j).sim.particles = r.sim.particles := rfl

theorem escape_fold_eq (maxR2 : ℚ) (r : Run) (n : Nat) :
    (List.range n).foldl (escape_iter maxR2) r =
      if ∃ i, i < n ∧ Escaped maxR2 r.sim.particles i then { r with ret_value := 2 } else r := by
  induction n with
  | zero => simp
  | succ n ih =>
    rw [List.range_succ, List.foldl_append, ih]
    by_cases h : ∃ i, i < n ∧ Escaped maxR2 r.sim.particles i
    · have h' : ∃ i, i < n + 1 ∧ Escaped maxR2 r.sim.particles i := by
        obtain ⟨i, hi, he⟩ := h
        exact ⟨i, by omega, he⟩
      simp only [h, h', if_true, List.foldl_cons, List.foldl_nil, escape_iter]
      split <;> rfl
    · by_cases hn : Escaped maxR2 r.sim.particles n
      · have h' : ∃ i, i < n + 1 ∧ Escaped maxR2 r.sim.particles i := ⟨n, by omega, hn⟩
        simp only [h, h', if_true, if_false, List.foldl_cons, List.foldl_nil, escape_iter]
        exact if_pos hn
      · have h' : ¬ ∃ i, i < n + 1 ∧ Escaped maxR2 r.sim.particles i := by
          rintro ⟨i, hi, he⟩
          rcases Nat.lt_succ_iff_lt_or_eq.mp hi with hlt | heq
          · exact h ⟨i, hlt, he⟩
          · exact hn (heq ▸ he)
        simp only [h, h', if_false, List.foldl_cons, List.foldl_nil, escape_iter]
        exact if_neg hn

theorem escape_check_eq (maxR : ℚ) (r : Run) :
    escape_check maxR r =
      if maxR ≠ 0 ∧ ∃ i, i < r.sim.nreal ∧ Escaped (maxR * maxR) r.sim.particles i
      then { r with ret_value := 2 } else r := by
  unfold escape_check
  by_cases h : maxR ≠ 0
  · simp only [escape_fold_eq]
    simp [h]
  · simp [h]

theorem close_iter_eq (minD2 : ℚ) (i : Nat) (r : Run) (j : Nat) :
    close_iter minD2 i (r.sim.particles.getD i Particle.zero) r j =
      if ClosePair minD2 r.sim.particles i j then r.found i j else r := rfl

theorem close_inner_spec (minD2 : ℚ) (ps : List Particle) (i : Nat) :
    ∀ (k : Nat) (r : Run), r.sim.particles = ps →
      InnerResult minD2 ps i k r
        ((List.range k).foldl (close_iter minD2 i (ps.getD i Particle.zero)) r) := by
  intro k
  induction k with
  | zero =>
    intro r _
    exact Or.inl ⟨fun j hj => absurd hj (Nat.not_lt_zero j), rfl⟩
  | succ k ih =>
    intro r hr
    rw [List.range_succ, List.foldl_append]
    simp only [List.foldl_cons, List.foldl_nil]
    rcases ih r hr with ⟨hnone, heq⟩ | ⟨j, hj, hc, hmax, heq⟩
    · rw [heq]
      have hstep := close_iter_eq minD2 i r k
      rw [hr] at hstep
      rw [hstep]
      by_cases hk : ClosePair minD2 ps i k
      · rw [if_pos hk]
        refine Or.inr ⟨k, Nat.lt_succ_self k, hk, ?_, rfl⟩
        intro j' hj' _
        omega
      · rw [if_neg hk]
        refine Or.inl ⟨?_, rfl⟩
        intro j hj
        rcases Nat.lt_succ_iff_lt_or_eq.mp hj with hlt | heq'
        · exact hnone j hlt
        · rw [heq']
          exact hk
    · rw [heq]
      have hstep := close_iter_eq minD2 i (r.found i j) k
      rw [found_particles, hr] at hstep
      rw [hstep]
      by_cases hk : ClosePair minD2 ps i k
      · rw [if_pos hk, found_found]
        refine Or.inr ⟨k, Nat.lt_succ_self k, hk, ?_, rfl⟩
        intro j' hj' _
        omega
      · rw [if_neg hk]
        refine Or.inr ⟨j, Nat.lt_succ_of_lt hj, hc, ?_, rfl⟩
        intro j' hj' hc'
        rcases Nat.lt_succ_iff_lt_or_eq.mp hj' with hlt | heq'
        · exact hmax j' hlt hc'
        · rw [heq'] at hc'
          exact absurd hc' hk

theorem close_outer_spec (minD2 : ℚ) (ps : List Particle) :
    ∀ (n : Nat) (r : Run), r.sim.particles = ps →
      CloseResult minD2 ps n r ((List.range n).foldl (close_outer minD2) r) := by
  intro n
  induction n with
  | zero =>
    intro r _
    exact Or.inl ⟨fun i j _ hi => absurd hi (Nat.not_lt_zero i), rfl⟩
  | succ n ih =>
    intro r hr
    rw [List.range_succ, List.foldl_append]
    simp only [List.foldl_cons, List.foldl_nil]
    rcases ih r hr with ⟨hnone, heq⟩ | ⟨i, j, hji, hin, hc, hmax, heq⟩
    · rw [heq]
      unfold close_outer
      simp only [hr]
      rcases close_inner_spec minD2 ps n n r hr with ⟨hnone', heq'⟩ | ⟨j, hj, hc, hmax, heq'⟩
      · rw [heq']
        refine Or.inl ⟨?_, rfl⟩
        intro i j hji hi
        rcases Nat.lt_succ_iff_lt_or_eq.mp hi with hlt | heq''
        · exact hnone i j hji hlt
        · rw [heq''] at hji ⊢
          exact hnone' j hji
      · rw [heq']
        refine Or.inr ⟨n, j, hj, Nat.lt_succ_self n, hc, ?_, rfl⟩
        intro i' j' hji' hi' hc'
        rcases Nat.lt_succ_iff_lt_or_eq.mp hi' with hlt | heq''
        · exact Or.inl hlt
        · rw [heq''] at hji' hc' ⊢
          exact Or.inr ⟨rfl, hmax j' hji' hc'⟩
    · rw [heq]
      unfold close_outer
      simp only [found_particles, hr]
      rcases close_inner_spec minD2 ps n n (r.found i j) (by rw [found_particles, hr]) with
        ⟨hnone', heq'⟩ | ⟨j2, hj2, hc2, hmax2, heq'⟩
      · rw [heq']
        refine Or.inr ⟨i, j, hji, Nat.lt_succ_of_lt hin, hc, ?_, rfl⟩
        intro i' j' hji' hi' hc'
        rcases Nat.lt_succ_iff_lt_or_eq.mp hi' with hlt | heq''
        · exact hmax i' j' hji' hlt hc'
        · rw [heq''] at hji' hc'
          exact absurd hc' (hnone' j' hji')
      · rw [heq', found_found]
        refine Or.inr ⟨n, j2, hj2, Nat.lt_succ_self n, hc2, ?_, rfl⟩
        intro i' j' hji' hi' hc'
        rcases Nat.lt_succ_iff_lt_or_eq.mp hi' with hlt | heq''
        · exact Or.inl hlt
        · rw [heq''] at hji' hc' ⊢
          exact Or.inr ⟨rfl, hmax2 j' hji' hc'⟩

theorem close_check_spec (minD : ℚ) (r : Run) :
    (minD = 0 ∧ close_check minD r = r) ∨
    (minD ≠ 0 ∧ CloseResult (minD * minD) r.sim.particles r.sim.nreal r (close_check minD r)) := by
  unfold close_check
  by_cases h : minD ≠ 0
  · rw [if_pos h]
    exact Or.inr ⟨h, close_outer_spec (minD * minD) r.sim.particles r.sim.nreal r rfl⟩
  · rw [if_neg h]
    exact Or.inl ⟨not_not.mp h, rfl⟩

theorem escape_check_frame (maxR : ℚ) (r : Run) :
    ∃ ret, escape_check maxR r = { r with ret_value := ret } := by
  rw [escape_check_eq]
  split
  · exact ⟨2, rfl⟩
  · exact ⟨r.ret_value, rfl⟩

theorem close_check_frame (minD : ℚ) (r : Run) :
    ∃ ret pi pj, close_check minD r =
      { r with ret_value := ret,
               sim := { r.sim with closeEncounterPi := pi, closeEncounterPj := pj } } := by
  rcases close_check_spec minD r with ⟨_, h⟩ | ⟨_, ⟨_, h⟩ | ⟨i, j, _, _, _, _, h⟩⟩
  · exact ⟨r.ret_value, r.sim.closeEncounterPi, r.sim.closeEncounterPj, h⟩
  · exact ⟨r.ret_value, r.sim.closeEncounterPi, r.sim.closeEncounterPj, h⟩
  · exact ⟨3, (i : Int), (j : Int), h⟩

/-- The two scans change nothing but `ret_value` and the recorded pair. -/
theorem scans_frame (maxR minD : ℚ) (r : Run) :
    ∃ ret pi pj, close_check minD (escape_check maxR r) =
      { r with ret_value := ret,
               sim := { r.sim with closeEncounterPi := pi, closeEncounterPj := pj } } := by
  obtain ⟨ret, h1⟩ := escape_check_frame maxR r
  obtain ⟨ret', pi, pj, h2⟩ := close_check_frame minD (escape_check maxR r)
  refine ⟨ret', pi, pj, ?_⟩
  rw [h2, h1]

theorem loop_body_eq (E : Externals) (ex : Int) (maxR minD : ℚ) (r : Run) :
    loop_body E ex maxR minD r = close_check minD (escape_check maxR (pre_scan E ex r)) := rfl

/-- The part of the state that decides how the loop goes on, after one iteration. -/
theorem loop_body_fields (E : Externals) (ex : Int) (maxR minD : ℚ) (r : Run) :
    (loop_body E ex maxR minD r).sim.t = r.sim.t + r.sim.dt ∧
    (loop_body E ex maxR minD r).sim.tmax = r.sim.tmax ∧
    (loop_body E ex maxR minD r).sim.N = r.sim.N ∧
    (loop_body E ex maxR minD r).sim.N_megno = r.sim.N_megno ∧
    (loop_body E ex maxR minD r).sim.integrator_whfast_synchronize_manually =
      r.sim.integrator_whfast_synchronize_manually ∧
    (loop_body E ex maxR minD r).sim.integrator_whfast_persistent_particles =
      r.sim.integrator_whfast_persistent_particles ∧
    ((r.sim.t + r.sim.dt + r.sim.dt ≥ r.sim.tmax ∧ ex = 1 ∧
        (loop_body E ex maxR minD r).sim.dt = r.sim.tmax - (r.sim.t + r.sim.dt) ∧
        (loop_body E ex maxR minD r).last_step = r.last_step + 1 ∧
        (loop_body E ex maxR minD r).dt_last_done = r.dt_last_done) ∨
     (¬ (r.sim.t + r.sim.dt + r.sim.dt ≥ r.sim.tmax ∧ ex = 1) ∧
        (loop_body E ex maxR minD r).sim.dt = r.sim.dt ∧
        (loop_body E ex maxR minD r).last_step = r.last_step ∧
        (loop_body E ex maxR minD r).dt_last_done = r.sim.dt)) := by
  obtain ⟨ret, pi, pj, hs⟩ := scans_frame maxR minD (pre_scan E ex r)
  obtain ⟨ps, l, hc, _, _⟩ := cycle_eq E r.sim
  rw [loop_body_eq, hs]
  unfold pre_scan finish_check
  rw [hc]
  by_cases hb : r.sim.t + r.sim.dt + r.sim.dt ≥ r.sim.tmax ∧ ex = 1
  · simp only [hb, integrator_synchronize]
    simp
  · simp only [hb]
    simp

/-! ## The `while` loop -/

/-- Loop invariants: a property kept by every iteration holds where the loop
ends, and the loop ends either with its condition false or at the `break`. -/
theorem integrate_loop_exit (E : Externals) (ex : Int) (maxR minD : ℚ) (P : Run → Prop)
    (hstep : ∀ r, P r → loop_cond r → 0 < r.sim.N → P (loop_body E ex maxR minD r)) :
    ∀ (fuel : Nat) (r r' : Run), P r → integrate_loop E ex maxR minD fuel r = some r' →
      (P r' ∧ ¬ loop_cond r') ∨
      (∃ r0, P r0 ∧ loop_cond r0 ∧ r0.sim.N ≤ 0 ∧ r' = { r0 with ret_value := 1 }) := by
  intro fuel
  induction fuel with
  | zero =>
    intro r r' _ h
    simp [integrate_loop] at h
  | succ fuel ih =>
    intro r r' hP h
    unfold integrate_loop at h
    by_cases hc : loop_cond r
    · rw [if_pos hc] at h
      by_cases hN : r.sim.N ≤ 0
      · rw [if_pos hN] at h
        exact Or.inr ⟨r, hP, hc, hN, (Option.some.inj h).symm⟩
      · rw [if_neg hN] at h
        exact ih _ r' (hstep r hP hc (not_le.mp hN)) h
    · rw [if_neg hc] at h
      rw [← Option.some.inj h]
      exact Or.inl ⟨hP, hc⟩

theorem integrate_start_eq (T : ℚ) (keep : Int) (s : Sim) :
    ∃ a c, integrate_start T keep s =
      { sim := { s with tmax := T, integrator_whfast_particles_modified := 1,
                        integrator_whfast_synchronize_manually := a,
                        integrator_whfast_persistent_particles := a,
                        integrator_force_is_velocitydependent := c },
        dt_last_done := s.dt, last_step := 0, ret_value := 0 } ∧
      (a = if s.N_megno ≠ 0 ∨ keep ≠ 0 then 0 else 1) := by
  unfold integrate_start
  by_cases h1 : s.N_megno ≠ 0 ∨ keep ≠ 0 <;> by_cases h2 : s.problem_additional_forces = none
  · exact ⟨0, 0, by simp only [h1, h2, if_true], by simp only [h1, if_true]⟩
  · exact ⟨0, s.integrator_force_is_velocitydependent,
      by simp only [h1, h2, if_true, if_false], by simp only [h1, if_true]⟩
  · exact ⟨1, 0, by simp only [h1, h2, if_true, if_false], by simp only [h1, if_false]⟩
  · exact ⟨1, s.integrator_force_is_velocitydependent,
      by simp only [h1, h2, if_false], by simp only [h1, if_false]⟩

/-- Unfolding of `integrate`: the state on return is the finish of the state in
which the loop ended. -/
theorem integrate_some (E : Externals) (fuel : Nat) (s : Sim) (T : ℚ) (ex keep : Int)
    (maxR minD : ℚ) (s' : Sim) (ret : Int)
    (h : integrate E fuel s T ex keep maxR minD = some (s', ret)) :
    ∃ r, integrate_loop E ex maxR minD fuel (integrate_start T keep s) = some r ∧
      integrate_finish E s.integrator_whfast_synchronize_manually
        s.integrator_whfast_persistent_particles r = (s', ret) := by
  unfold integrate at h
  exact Option.map_eq_some'.mp h

/-- If the next cycle lands on `tmax`, the loop ends within two tests. -/
theorem loop_ends_after_landing (E : Externals) (ex : Int) (maxR minD : ℚ) (r : Run)
    (h : r.sim.t + r.sim.dt = r.sim.tmax) (k : Nat) :
    (integrate_loop E ex maxR minD (k + 2) r).isSome = true := by
  unfold integrate_loop
  by_cases hc : loop_cond r
  · rw [if_pos hc]
    by_cases hN : r.sim.N ≤ 0
    · rw [if_pos hN]
      rfl
    · rw [if_neg hN]
      unfold integrate_loop
      have hf := loop_body_fields E ex maxR minD r
      have hc' : ¬ loop_cond (loop_body E ex maxR minD r) := by
        intro hcc
        have h1 := hcc.1
        rw [hf.1, hf.2.1, h] at h1
        exact lt_irrefl _ h1
      rw [if_neg hc']
      rfl
  · rw [if_neg hc]
    rfl

/-- With a positive timestep the loop ends: `n` cycles of the current `dt` reach
`tmax`, and `n + 2` tests of the loop condition are enough. -/
theorem loop_ends (E : Externals) (ex : Int) (maxR minD : ℚ) :
    ∀ (n : Nat) (r : Run), 0 < r.sim.dt → r.sim.tmax ≤ r.sim.t + (n : ℚ) * r.sim.dt →
      (integrate_loop E ex maxR minD (n + 2) r).isSome = true := by
  intro n
  induction n with
  | zero =>
    intro r _ h
    unfold integrate_loop
    have hc : ¬ loop_cond r := by
      intro hcc
      have h1 := hcc.1
      simp only [Nat.cast_zero, zero_mul, add_zero] at h
      exact absurd h1 (not_lt.mpr h)
    rw [if_neg hc]
    rfl
  | succ n ih =>
    intro r hdt h
    unfold integrate_loop
    by_cases hc : loop_cond r
    · rw [if_pos hc]
      by_cases hN : r.sim.N ≤ 0
      · rw [if_pos hN]
        rfl
      · rw [if_neg hN]
        have hf := loop_body_fields E ex maxR minD r
        rcases hf.2.2.2.2.2.2 with ⟨_, _, hdt', _, _⟩ | ⟨_, hdt', _, _⟩
        · apply loop_ends_after_landing
          rw [hf.1, hdt', hf.2.1]
          ring
        · apply ih
          · rw [hdt']
            exact hdt
          · rw [hf.1, hdt', hf.2.1]
            push_cast at h
            linarith
    · rw [if_neg hc]
      rfl

/-- With a positive timestep, `integrate` returns. -/
theorem integrate_returns (E : Externals) (s : Sim) (T : ℚ) (ex keep : Int) (maxR minD : ℚ)
    (hdt : 0 < s.dt) : ∃ fuel, (integrate E fuel s T ex keep maxR minD).isSome = true := by
  obtain ⟨n, hn⟩ := exists_nat_ge ((T - s.t) / s.dt)
  obtain ⟨a, c, hs, _⟩ := integrate_start_eq T keep s
  refine ⟨n + 2, ?_⟩
  unfold integrate
  rw [Option.isSome_map']
  apply loop_ends
  · rw [hs]
    exact hdt
  · rw [hs]
    have := (div_le_iff₀ hdt).mp hn
    simp only
    linarith

/-- Reading a returned state off an evaluation of the return value and time. -/
theorem returned_time {o : Option (Sim × Int)} {ret : Int} {v : ℚ}
    (h : o.map (fun x => (x.2, x.1.t)) = some (ret, v)) :
    ∃ s', o = some (s', ret) ∧ s'.t = v := by
  cases o with
  | none => simp at h
  | some x =>
    simp only [Option.map_some', Option.some.injEq, Prod.mk.injEq] at h
    exact ⟨x.1, by rw [← h.1], h.2⟩

theorem landsInv_step (E : Externals) (maxR minD T : ℚ) (r : Run)
    (hI : LandsInv T r) (hc : loop_cond r) : LandsInv T (loop_body E 1 maxR minD r) := by
  obtain ⟨htmax, hle, hnext, h1, h2⟩ := hI
  obtain ⟨ht, hlast, _⟩ := hc
  obtain ⟨ft, ftmax, _, _, _, _, hbr⟩ := loop_body_fields E 1 maxR minD r
  rw [htmax] at ht
  have hstep := hnext ht
  unfold LandsInv
  rw [ft, ftmax, htmax]
  rcases hbr with ⟨_, _, fdt, flast, _⟩ | ⟨hno, fdt, flast, _⟩
  · rw [fdt, flast, htmax]
    refine ⟨rfl, hstep, fun _ => by linarith, fun _ => Or.inl (by ring), ?_⟩
    intro h
    have h1' : 1 ≤ r.last_step := by omega
    rcases h1 h1' with h | h
    · exact h
    · linarith
  · rw [fdt, flast]
    rw [htmax] at hno
    have hlt : r.sim.t + r.sim.dt + r.sim.dt < T := by
      by_contra hcon
      exact hno ⟨not_lt.mp hcon, rfl⟩
    refine ⟨rfl, hstep, fun _ => le_of_lt hlt, ?_, ?_⟩
    · intro h
      rcases h1 h with h | h
      · exact Or.inr h
      · linarith
    · intro h
      omega

theorem landsInv_start (s : Sim) (T : ℚ) (keep : Int) (h1 : s.t ≤ T)
    (h2 : s.t = T ∨ s.t + s.dt ≤ T) : LandsInv T (integrate_start T keep s) := by
  obtain ⟨a, c, hs, _⟩ := integrate_start_eq T keep s
  rw [hs]
  refine ⟨rfl, h1, ?_, ?_, ?_⟩
  · intro hlt
    rcases h2 with h | h
    · exact absurd h (ne_of_lt hlt)
    · exact h
  · intro h
    exact absurd (show (1 : Int) ≤ 0 from h) (by decide)
  · intro h
    exact absurd (show (2 : Int) ≤ 0 from h) (by decide)

/-- A call entered with `t ≥ T` does not enter the loop: it returns 0 at once
and leaves `t` and `dt` as they were. -/
theorem integrate_at_or_past_target (E : Externals) (s : Sim) (T : ℚ) (ex keep : Int)
    (maxR minD : ℚ) (h : T ≤ s.t) (fuel : Nat) :
    ∃ s', integrate E (fuel + 1) s T ex keep maxR minD = some (s', 0) ∧
      s'.t = s.t ∧ s'.dt = s.dt := by
  obtain ⟨a, c, hs, _⟩ := integrate_start_eq T keep s
  have hc : ¬ loop_cond (integrate_start T keep s) := by
    rw [hs]
    intro hcc
    exact absurd hcc.1 (not_lt.mpr h)
  unfold integrate integrate_loop
  rw [if_neg hc, hs]
  exact ⟨_, rfl, rfl, rfl⟩

/-! ## C1: exact finish -/

/-- C1 (as amended). A call `integrate(T, exactFinishTime=1, ...)` that is
entered with `t ≤ T` and whose first step does not pass `T` (`t = T` already, or
`t + dt ≤ T`) and that returns 0, returns with `t = T` exactly; with `dt > 0`
the call does return. Entered with `t ≥ T` it returns 0 at once with `t`
unchanged. -/
theorem exact_finish_lands (E : Externals) (s : Sim) (T : ℚ) (keepSynchronized : Int)
    (maxR minD : ℚ) :
    (s.t ≤ T → (s.t = T ∨ s.t + s.dt ≤ T) → ∀ fuel s',
      integrate E fuel s T 1 keepSynchronized maxR minD = some (s', 0) → s'.t = T) ∧
    (0 < s.dt → ∃ fuel, (integrate E fuel s T 1 keepSynchronized maxR minD).isSome = true) ∧
    (T ≤ s.t → ∀ fuel, ∃ s',
      integrate E (fuel + 1) s T 1 keepSynchronized maxR minD = some (s', 0) ∧ s'.t = s.t) := by
  refine ⟨?_, integrate_returns E s T 1 keepSynchronized maxR minD, ?_⟩
  · intro h1 h2 fuel s' h
    obtain ⟨r, hloop, hfin⟩ := integrate_some E fuel s T 1 keepSynchronized maxR minD s' 0 h
    have hs' : s'.t = r.sim.t := by
      rw [← (Prod.mk.inj hfin).1]
      rfl
    have hret : r.ret_value = 0 := (Prod.mk.inj hfin).2
    rcases integrate_loop_exit E 1 maxR minD (LandsInv T)
        (fun r hI hc _ => landsInv_step E maxR minD T r hI hc) fuel _ r
        (landsInv_start s T keepSynchronized h1 h2) hloop with
      ⟨⟨htmax, hle, _, _, h2'⟩, hnc⟩ | ⟨r0, _, _, _, hr⟩
    · rw [hs']
      by_cases hlt : r.sim.t < T
      · by_cases hl : r.last_step < 2
        · exact absurd ⟨htmax ▸ hlt, hl, hret⟩ hnc
        · exact h2' (not_lt.mp hl)
      · exact le_antisymm hle (not_lt.mp hlt)
    · rw [hr] at hret
      exact absurd (show (1 : Int) = 0 from hret) (by decide)
  · intro h fuel
    obtain ⟨s', h1, h2, _⟩ :=
      integrate_at_or_past_target E s T 1 keepSynchronized maxR minD h fuel
    exact ⟨s', h1, h2⟩

/-- Witness for `exact_finish_lands`: from `t = 0` with `dt = 1` to `T = 5/2`
the call returns 0, and it does so at `t = 5/2`. -/
theorem exact_finish_lands_witness :
    ∃ s', integrate Externals.still 4 (Sim.ofParticles [Particle.at 0 0 0] 1) (5 / 2)
        1 0 0 0 = some (s', 0) ∧ s'.t = 5 / 2 := by
  obtain ⟨s', h, _⟩ := returned_time
    (show (integrate Externals.still 4 (Sim.ofParticles [Particle.at 0 0 0] 1) (5 / 2)
      1 0 0 0).map (fun x => (x.2, x.1.t)) = some (0, 5 / 2) by decide!)
  exact ⟨s', h,
    (exact_finish_lands Externals.still (Sim.ofParticles [Particle.at 0 0 0] 1) (5 / 2) 0 0 0).1
      (by decide!) (Or.inr (by decide!)) 4 s' h⟩

/-- C1 (as stated) fails on the code. Entered at `t = 0` with `dt = 1` and
`T = 1/2`, the first step is taken at the full `dt` and the call returns 0 at
`t = 1`; entered at `t = 5` with `T = 3`, the loop is not entered and the call
returns 0 at `t = 5`. -/
theorem exact_finish_counterexample :
    (∃ s', integrate Externals.still 2 (Sim.ofParticles [Particle.at 0 0 0] 1) (1 / 2)
        1 0 0 0 = some (s', 0) ∧ s'.t = 1 ∧ s'.t ≠ 1 / 2) ∧
    (∃ s', integrate Externals.still 1
        { Sim.ofParticles [Particle.at 0 0 0] 1 with t := 5 } 3 1 0 0 0 = some (s', 0) ∧
        s'.t = 5 ∧ s'.t ≠ 3) := by
  constructor
  · obtain ⟨s', h, ht⟩ := returned_time
      (show (integrate Externals.still 2 (Sim.ofParticles [Particle.at 0 0 0] 1) (1 / 2)
        1 0 0 0).map (fun x => (x.2, x.1.t)) = some (0, 1) by decide!)
    exact ⟨s', h, ht, by rw [ht]; norm_num⟩
  · obtain ⟨s', h, ht⟩ := returned_time
      (show (integrate Externals.still 1
        { Sim.ofParticles [Particle.at 0 0 0] 1 with t := 5 } 3 1 0 0 0).map
          (fun x => (x.2, x.1.t)) = some (0, 5) by decide!)
    exact ⟨s', h, ht, by rw [ht]; norm_num⟩

theorem overshootInv_step (E : Externals) (maxR minD t0 dt0 T : ℚ) (r : Run)
    (hI : OvershootInv t0 dt0 T r) (hc : loop_cond r) :
    OvershootInv t0 dt0 T (loop_body E 0 maxR minD r) := by
  obtain ⟨htmax, hl, hdt, _⟩ := hI
  obtain ⟨ht, _, _⟩ := hc
  obtain ⟨ft, ftmax, _, _, _, _, hbr⟩ := loop_body_fields E 0 maxR minD r
  rw [htmax] at ht
  unfold OvershootInv
  rw [ft, ftmax, htmax]
  rcases hbr with ⟨_, hex, _⟩ | ⟨_, fdt, flast, _⟩
  · exact absurd hex (by decide)
  · rw [fdt, flast, hdt]
    exact ⟨rfl, hl, rfl, fun _ => Or.inl (by linarith)⟩

/-! ## C2: overshoot without exact finish -/

/-- C2 (as amended). A call `integrate(T, exactFinishTime=0, ...)` that returns 0
returns with `t ≥ T`, and with `t - T < dt0` if it was entered with `t < T`
(`dt0` is `dt` before the call); with `dt0 > 0` the call does return. Entered
with `t ≥ T` it returns 0 at once with `t` unchanged, however far past `T`. -/
theorem overshoot_bound (E : Externals) (s : Sim) (T : ℚ) (keepSynchronized : Int)
    (maxR minD : ℚ) :
    (∀ fuel s', integrate E fuel s T 0 keepSynchronized maxR minD = some (s', 0) →
      T ≤ s'.t ∧ (s.t < T → s'.t - T < s.dt)) ∧
    (0 < s.dt → ∃ fuel, (integrate E fuel s T 0 keepSynchronized maxR minD).isSome = true) ∧
    (T ≤ s.t → ∀ fuel, ∃ s',
      integrate E (fuel + 1) s T 0 keepSynchronized maxR minD = some (s', 0) ∧ s'.t = s.t) := by
  refine ⟨?_, integrate_returns E s T 0 keepSynchronized maxR minD, ?_⟩
  · intro fuel s' h
    obtain ⟨r, hloop, hfin⟩ := integrate_some E fuel s T 0 keepSynchronized maxR minD s' 0 h
    have hs' : s'.t = r.sim.t := by
      rw [← (Prod.mk.inj hfin).1]
      rfl
    have hret : r.ret_value = 0 := (Prod.mk.inj hfin).2
    have hstart : OvershootInv s.t s.dt T (integrate_start T keepSynchronized s) := by
      obtain ⟨a, c, hs, _⟩ := integrate_start_eq T keepSynchronized s
      rw [hs]
      exact ⟨rfl, rfl, rfl, fun hlt => Or.inr hlt⟩
    rcases integrate_loop_exit E 0 maxR minD (OvershootInv s.t s.dt T)
        (fun r hI hc _ => overshootInv_step E maxR minD s.t s.dt T r hI hc) fuel _ r
        hstart hloop with
      ⟨⟨htmax, hl, _, hover⟩, hnc⟩ | ⟨r0, _, _, _, hr⟩
    · rw [hs']
      have hge : T ≤ r.sim.t := by
        by_contra hcon
        refine hnc ⟨htmax ▸ not_le.mp hcon, ?_, hret⟩
        rw [hl]
        decide
      refine ⟨hge, fun hlt => ?_⟩
      rcases hover hlt with h | h
      · exact h
      · exact absurd hge (not_le.mpr h)
    · rw [hr] at hret
      exact absurd (show (1 : Int) = 0 from hret) (by decide)
  · intro h fuel
    obtain ⟨s', h1, h2, _⟩ :=
      integrate_at_or_past_target E s T 0 keepSynchronized maxR minD h fuel
    exact ⟨s', h1, h2⟩

/-- Witness for `overshoot_bound`: from `t = 0` with `dt = 1` to `T = 5/2` the
call returns 0 (at `t = 3`), with `t ≥ 5/2` and `t - 5/2 < 1`. -/
theorem overshoot_bound_witness :
    ∃ s', integrate Externals.still 4 (Sim.ofParticles [Particle.at 0 0 0] 1) (5 / 2)
        0 0 0 0 = some (s', 0) ∧ 5 / 2 ≤ s'.t ∧
      s'.t - 5 / 2 < (Sim.ofParticles [Particle.at 0 0 0] 1).dt := by
  obtain ⟨s', h, _⟩ := returned_time
    (show (integrate Externals.still 4 (Sim.ofParticles [Particle.at 0 0 0] 1) (5 / 2)
      0 0 0 0).map (fun x => (x.2, x.1.t)) = some (0, 3) by decide!)
  obtain ⟨hge, hlt⟩ :=
    (overshoot_bound Externals.still (Sim.ofParticles [Particle.at 0 0 0] 1) (5 / 2) 0 0 0).1
      4 s' h
  exact ⟨s', h, hge, hlt (by decide!)⟩

/-- C2 (as stated) fails on the code. Entered at `t = 10` with `dt = 1` and
`T = 0`, the call returns 0 at `t = 10`, and `10 - 0` is not below `dt0 = 1`. -/
theorem overshoot_counterexample :
    ∃ s', integrate Externals.still 1
        { Sim.ofParticles [Particle.at 0 0 0] 1 with t := 10 } 0 0 0 0 0 = some (s', 0) ∧
      s'.t = 10 ∧
      ¬ (s'.t - 0 < ({ Sim.ofParticles [Particle.at 0 0 0] 1 with t := 10 } : Sim).dt) := by
  obtain ⟨s', h, ht⟩ := returned_time
    (show (integrate Externals.still 1
      { Sim.ofParticles [Particle.at 0 0 0] 1 with t := 10 } 0 0 0 0 0).map
        (fun x => (x.2, x.1.t)) = some (0, 10) by decide!)
  refine ⟨s', h, ht, ?_⟩
  rw [ht]
  decide!

/-! ## The scans after a step -/

/-- What the cycle and the exact-finish bookkeeping leave as they were. -/
theorem pre_scan_fields (E : Externals) (ex : Int) (r : Run) :
    (pre_scan E ex r).sim.N = r.sim.N ∧
    (pre_scan E ex r).sim.N_megno = r.sim.N_megno ∧
    (pre_scan E ex r).sim.closeEncounterPi = r.sim.closeEncounterPi ∧
    (pre_scan E ex r).sim.closeEncounterPj = r.sim.closeEncounterPj ∧
    (pre_scan E ex r).ret_value = r.ret_value := by
  obtain ⟨ps, l, hc, _, _⟩ := cycle_eq E r.sim
  unfold pre_scan finish_check
  rw [hc]
  by_cases hb : r.sim.t + r.sim.dt + r.sim.dt ≥ r.sim.tmax ∧ ex = 1
  · simp only [hb, integrator_synchronize]
    simp
  · simp only [hb]
    simp

theorem pre_scan_nreal (E : Externals) (ex : Int) (r : Run) :
    (pre_scan E ex r).sim.nreal = r.sim.nreal := by
  obtain ⟨h1, h2, _⟩ := pre_scan_fields E ex r
  unfold Sim.nreal
  rw [h1, h2]

/-- The two scans on a state `p`: the escape check decides between 2 and the old
return value, then the close-encounter check either leaves that, or records the
passing pair that is last in scan order and sets 3. -/
theorem scans_cases (maxR minD : ℚ) (p : Run) :
    ((minD = 0 ∨ ∀ i j, j < i → i < p.sim.nreal → ¬ ClosePair (minD * minD) p.sim.particles i j) ∧
      close_check minD (escape_check maxR p) = escape_check maxR p) ∨
    (minD ≠ 0 ∧ ∃ i j, j < i ∧ i < p.sim.nreal ∧ ClosePair (minD * minD) p.sim.particles i j ∧
      (∀ i' j', j' < i' → i' < p.sim.nreal → ClosePair (minD * minD) p.sim.particles i' j' →
        i' < i ∨ (i' = i ∧ j' ≤ j)) ∧
      close_check minD (escape_check maxR p) = (escape_check maxR p).found i j) := by
  obtain ⟨ret, he⟩ := escape_check_frame maxR p
  have hsim : (escape_check maxR p).sim = p.sim := by rw [he]
  rcases close_check_spec minD (escape_check maxR p) with ⟨h0, h⟩ | ⟨h0, hres⟩
  · exact Or.inl ⟨Or.inl h0, h⟩
  · rw [hsim] at hres
    rcases hres with ⟨hnone, h⟩ | ⟨i, j, hji, hin, hc, hmax, h⟩
    · exact Or.inl ⟨Or.inr hnone, h⟩
    · exact Or.inr ⟨h0, i, j, hji, hin, hc, hmax, h⟩

/-- An iteration that leaves a nonzero return value is the last one: the loop
ends at the next test of its condition. -/
theorem loop_stops (E : Externals) (ex : Int) (maxR minD : ℚ) (r : Run)
    (hc : loop_cond r) (hN : 0 < r.sim.N) (hret : (loop_body E ex maxR minD r).ret_value ≠ 0)
    (fuel : Nat) :
    integrate_loop E ex maxR minD (fuel + 2) r = some (loop_body E ex maxR minD r) := by
  unfold integrate_loop
  rw [if_pos hc, if_neg (not_le.mpr hN)]
  unfold integrate_loop
  rw [if_neg (fun hcc => hret hcc.2.2)]

theorem steps_succ (E : Externals) (ex : Int) (maxR minD : ℚ) (k : Nat) (r : Run) :
    steps E ex maxR minD (k + 1) r =
      loop_body E ex maxR minD (steps E ex maxR minD k r) := by
  induction k generalizing r with
  | zero => rfl
  | succ k ih =>
    show steps E ex maxR minD (k + 1) (loop_body E ex maxR minD r) = _
    rw [ih]
    rfl

theorem integrate_loop_succ (E : Externals) (ex : Int) (maxR minD : ℚ) (fuel : Nat) (r : Run) :
    integrate_loop E ex maxR minD (fuel + 1) r =
      if loop_cond r then
        if r.sim.N ≤ 0 then some { r with ret_value := 1 }
        else integrate_loop E ex maxR minD fuel (loop_body E ex maxR minD r)
      else some r := rfl

/-- Running the loop through `k` iterations that are known to be taken. -/
theorem loop_steps (E : Externals) (ex : Int) (maxR minD : ℚ) :
    ∀ (k : Nat) (r : Run), StepsTaken E ex maxR minD k r → ∀ fuel,
      integrate_loop E ex maxR minD (fuel + k) r =
        integrate_loop E ex maxR minD fuel (steps E ex maxR minD k r) := by
  intro k
  induction k with
  | zero =>
    intro r _ fuel
    rfl
  | succ k ih =>
    intro r h fuel
    have h0 : loop_cond r ∧ 0 < r.sim.N := h 0 (Nat.succ_pos k)
    have hk : StepsTaken E ex maxR minD k (loop_body E ex maxR minD r) :=
      fun m hm => h (m + 1) (Nat.succ_lt_succ hm)
    have hstep : integrate_loop E ex maxR minD ((fuel + k) + 1) r =
        integrate_loop E ex maxR minD (fuel + k) (loop_body E ex maxR minD r) := by
      rw [integrate_loop_succ, if_pos h0.1, if_neg (not_le.mpr h0.2)]
    exact hstep.trans (ih _ hk fuel)

theorem scanInv_step (E : Externals) (ex : Int) (maxR minD : ℚ) (s0 : Sim) (r : Run)
    (hI : ScanInv s0 minD r) (hc : loop_cond r) :
    ScanInv s0 minD (loop_body E ex maxR minD r) := by
  have hret0 : r.ret_value = 0 := hc.2.2
  rcases hI with ⟨_, hpi, hpj⟩ | ⟨h3, _⟩
  · obtain ⟨_, _, fpi, fpj, fret⟩ := pre_scan_fields E ex r
    obtain ⟨ret, he⟩ := escape_check_frame maxR (pre_scan E ex r)
    have hret : ret = 2 ∨ ret = 0 := by
      have h := escape_check_eq maxR (pre_scan E ex r)
      rw [he] at h
      split at h
      · exact Or.inl (congrArg Run.ret_value h)
      · right
        have h' := congrArg Run.ret_value h
        simp only at h'
        rw [h', fret, hret0]
    rw [loop_body_eq]
    rcases scans_cases maxR minD (pre_scan E ex r) with ⟨_, h⟩ | ⟨h0, i, j, hji, hin, hcl, hmax, h⟩
    · rw [h, he]
      refine Or.inl ⟨?_, by rw [← hpi, ← fpi], by rw [← hpj, ← fpj]⟩
      rcases hret with h | h
      · rw [h]
        exact (by decide : (2 : Int) ≠ 3)
      · rw [h]
        exact (by decide : (0 : Int) ≠ 3)
    · rw [h, he]
      exact Or.inr ⟨rfl, h0, i, j, rfl, rfl, hji, hin, hcl, hmax⟩
  · rw [hret0] at h3
    exact absurd h3 (by decide)

/-- Where the loop of a call ends, the recorded pair is as `ScanInv` says. -/
theorem integrate_scanInv (E : Externals) (fuel : Nat) (s : Sim) (T : ℚ) (ex keep : Int)
    (maxR minD : ℚ) (r : Run)
    (h : integrate_loop E ex maxR minD fuel (integrate_start T keep s) = some r) :
    ScanInv s minD r := by
  have hstart : ScanInv s minD (integrate_start T keep s) := by
    obtain ⟨a, c, hs, _⟩ := integrate_start_eq T keep s
    rw [hs]
    exact Or.inl ⟨(by decide : (0 : Int) ≠ 3), rfl, rfl⟩
  rcases integrate_loop_exit E ex maxR minD (ScanInv s minD)
      (fun r hI hc _ => scanInv_step E ex maxR minD s r hI hc) fuel _ r hstart h with
    ⟨hI, _⟩ | ⟨r0, hI, hc, _, hr⟩
  · exact hI
  · rw [hr]
    rcases hI with ⟨_, hpi, hpj⟩ | ⟨h3, _⟩
    · exact Or.inl ⟨(by decide : (1 : Int) ≠ 3), hpi, hpj⟩
    · rw [hc.2.2] at h3
      exact absurd h3 (by decide)

/-- Reading a returned state off an evaluation of the return value and the
recorded pair. -/
theorem returned_pair {o : Option (Sim × Int)} {ret pi pj : Int}
    (h : o.map (fun x => (x.2, x.1.closeEncounterPi, x.1.closeEncounterPj)) =
      some (ret, pi, pj)) :
    ∃ s', o = some (s', ret) ∧ s'.closeEncounterPi = pi ∧ s'.closeEncounterPj = pj := by
  cases o with
  | none => simp at h
  | some x =>
    simp only [Option.map_some', Option.some.injEq, Prod.mk.injEq] at h
    exact ⟨x.1, by rw [← h.1], h.2.1, h.2.2⟩

/-- The first iteration of a call entered with `t < T`: its loop condition holds. -/
theorem loop_cond_start (s : Sim) (T : ℚ) (keep : Int) (h : s.t < T) :
    loop_cond (integrate_start T keep s) := by
  obtain ⟨a, c, hs, _⟩ := integrate_start_eq T keep s
  rw [hs]
  exact ⟨h, (by decide : (0 : Int) < 2), rfl⟩

theorem integrate_start_counts (s : Sim) (T : ℚ) (keep : Int) :
    (integrate_start T keep s).sim.N = s.N ∧
    (integrate_start T keep s).sim.N_megno = s.N_megno ∧
    (integrate_start T keep s).sim.t = s.t ∧
    (integrate_start T keep s).sim.dt = s.dt := by
  obtain ⟨a, c, hs, _⟩ := integrate_start_eq T keep s
  rw [hs]
  exact ⟨rfl, rfl, rfl, rfl⟩

/-- A call whose first iteration leaves a nonzero return value returns after
that one iteration. -/
theorem integrate_one_step (E : Externals) (s : Sim) (T : ℚ) (ex keep : Int) (maxR minD : ℚ)
    (ht : s.t < T) (hN : 0 < s.N)
    (hret : (loop_body E ex maxR minD (integrate_start T keep s)).ret_value ≠ 0) (fuel : Nat) :
    integrate E (fuel + 2) s T ex keep maxR minD =
      some (integrate_finish E s.integrator_whfast_synchronize_manually
        s.integrator_whfast_persistent_particles
        (loop_body E ex maxR minD (integrate_start T keep s))) := by
  have hN' : 0 < (integrate_start T keep s).sim.N := by
    rw [(integrate_start_counts s T keep).1]
    exact hN
  unfold integrate
  rw [loop_stops E ex maxR minD _ (loop_cond_start s T keep ht) hN' hret fuel]
  rfl

/-! ## C3: escape detection -/

/-- What an iteration leaves when its step ends with a real particle beyond
`maxR`: the scans do not touch the particle array, and the return value is 3 if
a pair of real particles passes the close-encounter test, else 2. -/
theorem escape_scan_result (E : Externals) (ex : Int) (maxR minD : ℚ) (hR : maxR ≠ 0)
    (r : Run)
    (hesc : ∃ i, i < r.sim.nreal ∧ Escaped (maxR * maxR) (pre_scan E ex r).sim.particles i) :
    (loop_body E ex maxR minD r).sim.particles = (pre_scan E ex r).sim.particles ∧
    ((minD = 0 ∨ ∀ i j, j < i → i < r.sim.nreal →
        ¬ ClosePair (minD * minD) (pre_scan E ex r).sim.particles i j) →
      (loop_body E ex maxR minD r).ret_value = 2) ∧
    ((minD ≠ 0 ∧ ∃ i j, j < i ∧ i < r.sim.nreal ∧
        ClosePair (minD * minD) (pre_scan E ex r).sim.particles i j) →
      (loop_body E ex maxR minD r).ret_value = 3) ∧
    ((loop_body E ex maxR minD r).ret_value = 2 ∨ (loop_body E ex maxR minD r).ret_value = 3) := by
  have he : escape_check maxR (pre_scan E ex r) = { pre_scan E ex r with ret_value := 2 } := by
    rw [escape_check_eq, pre_scan_nreal]
    exact if_pos ⟨hR, hesc⟩
  rw [loop_body_eq]
  rcases scans_cases maxR minD (pre_scan E ex r) with
    ⟨hno, h⟩ | ⟨h0, i, j, hji, hin, hcl, _, h⟩
  · rw [h, he]
    refine ⟨rfl, fun _ => rfl, ?_, Or.inl rfl⟩
    rintro ⟨h0, i, j, hji, hin, hcl⟩
    rcases hno with hz | hno
    · exact absurd hz h0
    · rw [pre_scan_nreal] at hno
      exact absurd hcl (hno i j hji hin)
  · rw [h, he]
    refine ⟨rfl, ?_, fun _ => rfl, Or.inr rfl⟩
    intro hno
    rcases hno with hz | hno
    · exact absurd hz h0
    · rw [pre_scan_nreal] at hin
      exact absurd hcl (hno i j hji hin)

/-- C3 (as amended). With `maxR ≠ 0`, if after a completed step some real
particle `i < N - N_megno` has `x²+y²+z² > maxR²`, the loop takes no further
step, the scans leave the particle array as the step left it, and the return
value is 2 when no pair of real particles passes the close-encounter test (or
`minD = 0`), and 3 when `minD ≠ 0` and some pair passes it. This holds for the
loop from any state, and so for a call of `integrate` at its `k+1`-th step,
which is then its last. In particular a call entered with `t < T` and a single
particle that is beyond `maxR` after the first step returns 2 after that step. -/
theorem escape_detection (E : Externals) (ex : Int) (maxR minD : ℚ) (hR : maxR ≠ 0) :
    (∀ r : Run, loop_cond r → 0 < r.sim.N →
      (∃ i, i < r.sim.nreal ∧ Escaped (maxR * maxR) (pre_scan E ex r).sim.particles i) →
      (∀ fuel, integrate_loop E ex maxR minD (fuel + 2) r = some (loop_body E ex maxR minD r)) ∧
      (loop_body E ex maxR minD r).sim.particles = (pre_scan E ex r).sim.particles ∧
      ((minD = 0 ∨ ∀ i j, j < i → i < r.sim.nreal →
          ¬ ClosePair (minD * minD) (pre_scan E ex r).sim.particles i j) →
        (loop_body E ex maxR minD r).ret_value = 2) ∧
      ((minD ≠ 0 ∧ ∃ i j, j < i ∧ i < r.sim.nreal ∧
          ClosePair (minD * minD) (pre_scan E ex r).sim.particles i j) →
        (loop_body E ex maxR minD r).ret_value = 3)) ∧
    (∀ (s : Sim) (T : ℚ) (keep : Int) (k : Nat),
      StepsTaken E ex maxR minD (k + 1) (integrate_start T keep s) →
      (∃ i, i < (steps E ex maxR minD k (integrate_start T keep s)).sim.nreal ∧
        Escaped (maxR * maxR)
          (pre_scan E ex (steps E ex maxR minD k (integrate_start T keep s))).sim.particles i) →
      ∀ fuel, ∃ s' ret, integrate E (fuel + 2 + k) s T ex keep maxR minD = some (s', ret) ∧
        (ret = 2 ∨ ret = 3) ∧
        ret = (steps E ex maxR minD (k + 1) (integrate_start T keep s)).ret_value ∧
        s'.t = (steps E ex maxR minD (k + 1) (integrate_start T keep s)).sim.t) ∧
    (∀ (s : Sim) (T : ℚ) (keep : Int) (fuel : Nat), s.t < T → s.N = 1 → s.N_megno = 0 →
      Escaped (maxR * maxR) (pre_scan E ex (integrate_start T keep s)).sim.particles 0 →
      ∃ s', integrate E (fuel + 2) s T ex keep maxR minD = some (s', 2)) := by
  have stops : ∀ r : Run, loop_cond r → 0 < r.sim.N →
      (∃ i, i < r.sim.nreal ∧ Escaped (maxR * maxR) (pre_scan E ex r).sim.particles i) →
      ∀ fuel, integrate_loop E ex maxR minD (fuel + 2) r =
        some (loop_body E ex maxR minD r) := by
    intro r hc hN hesc fuel
    apply loop_stops E ex maxR minD r hc hN
    rcases (escape_scan_result E ex maxR minD hR r hesc).2.2.2 with h | h
    · rw [h]
      decide
    · rw [h]
      decide
  refine ⟨?_, ?_, ?_⟩
  · intro r hc hN hesc
    obtain ⟨hp, h2, h3, _⟩ := escape_scan_result E ex maxR minD hR r hesc
    exact ⟨stops r hc hN hesc, hp, h2, h3⟩
  · intro s T keep k htaken hesc fuel
    have hk := htaken k (Nat.lt_succ_self k)
    have hpre : StepsTaken E ex maxR minD k (integrate_start T keep s) :=
      fun m hm => htaken m (Nat.lt_succ_of_lt hm)
    have hloop : integrate_loop E ex maxR minD (fuel + 2 + k) (integrate_start T keep s) =
        some (steps E ex maxR minD (k + 1) (integrate_start T keep s)) := by
      rw [loop_steps E ex maxR minD k _ hpre (fuel + 2), stops _ hk.1 hk.2 hesc fuel,
        steps_succ]
    have h23 := (escape_scan_result E ex maxR minD hR _ hesc).2.2.2
    rw [← steps_succ] at h23
    refine ⟨(integrate_finish E s.integrator_whfast_synchronize_manually
      s.integrator_whfast_persistent_particles
      (steps E ex maxR minD (k + 1) (integrate_start T keep s))).1,
      (steps E ex maxR minD (k + 1) (integrate_start T keep s)).ret_value, ?_, h23, rfl, rfl⟩
    unfold integrate
    rw [hloop]
    rfl
  · intro s T keep fuel ht hN hM hesc
    obtain ⟨fN, fM, _, _⟩ := integrate_start_counts s T keep
    have hn : (integrate_start T keep s).sim.nreal = 1 := by
      unfold Sim.nreal
      rw [fN, fM, hN, hM]
      rfl
    obtain ⟨_, h2, _⟩ := escape_scan_result E ex maxR minD hR (integrate_start T keep s)
      ⟨0, by rw [hn]; exact Nat.one_pos, hesc⟩
    have hret : (loop_body E ex maxR minD (integrate_start T keep s)).ret_value = 2 := by
      apply h2
      right
      intro i j hji hin
      rw [hn] at hin
      omega
    have hone := integrate_one_step E s T ex keep maxR minD ht (by rw [hN]; decide)
      (by rw [hret]; decide) fuel
    refine ⟨(integrate_finish E s.integrator_whfast_synchronize_manually
      s.integrator_whfast_persistent_particles
      (loop_body E ex maxR minD (integrate_start T keep s))).1, ?_⟩
    rw [hone, ← hret]
    rfl

/-- Witness for `escape_detection`: one particle at rest at `(5, 0, 0)` with
`maxR = 1`: the first call returns 2; two particles at rest at `(5, 0, 0)` with
`maxR = 1`, `minD = 1`: the first iteration ends the loop with 3; one particle
moving from the origin with unit speed, `dt = 1`, `maxR = 3/2`: the second step
takes it to `x = 2` and the call returns 2 at `t = 2`. -/
theorem escape_detection_witness :
    (1 : ℚ) ≠ 0 ∧
    (∃ s', integrate Externals.still 2 (Sim.ofParticles [Particle.at 5 0 0] 1) (5 / 2)
      0 0 1 0 = some (s', 2)) ∧
    (loop_body Externals.still 0 1 1 (integrate_start (5 / 2) 0
      (Sim.ofParticles [Particle.at 5 0 0, Particle.at 5 0 0] 1))).ret_value = 3 ∧
    (integrate Externals.drift 3 (Sim.ofParticles [Particle.moving 0 1] 1) 10
      0 0 (3 / 2) 0).map (fun o => (o.2, o.1.t)) = some (2, 2) ∧
    (∃ s' ret, integrate Externals.drift (0 + 2 + 1) (Sim.ofParticles [Particle.moving 0 1] 1) 10
        0 0 (3 / 2) 0 = some (s', ret) ∧ (ret = 2 ∨ ret = 3) ∧
      ret = (steps Externals.drift 0 (3 / 2) 0 (1 + 1)
        (integrate_start 10 0 (Sim.ofParticles [Particle.moving 0 1] 1))).ret_value ∧
      s'.t = (steps Externals.drift 0 (3 / 2) 0 (1 + 1)
        (integrate_start 10 0 (Sim.ofParticles [Particle.moving 0 1] 1))).sim.t) :=
  ⟨by decide!,
   (escape_detection Externals.still 0 1 0 (by decide!)).2.2
     (Sim.ofParticles [Particle.at 5 0 0] 1) (5 / 2) 0 0
     (by decide!) (by decide!) (by decide!) (by decide!),
   ((escape_detection Externals.still 0 1 1 (by decide!)).1
     (integrate_start (5 / 2) 0 (Sim.ofParticles [Particle.at 5 0 0, Particle.at 5 0 0] 1))
     (by decide!) (by decide!) ⟨0, by decide!, by decide!⟩).2.2.2
     ⟨by decide!, 1, 0, by decide, by decide!, by decide!⟩,
   by decide!,
   (escape_detection Externals.drift 0 (3 / 2) 0 (by decide!)).2.1
     (Sim.ofParticles [Particle.moving 0 1] 1) 10 0 1
     (fun m hm => by
       have hm' : m = 0 ∨ m = 1 := by omega
       rcases hm' with h | h
       · rw [h]
         decide!
       · rw [h]
         decide!)
     ⟨0, by decide!, by decide!⟩ 0⟩

/-- C3 (as stated) fails on the code. Two particles at rest at `(5, 0, 0)` with
`maxR = 1` and `minD = 1`: particle 0 is beyond `maxR` after the step, and the
call returns 3, not 2, because the close-encounter scan runs after the escape
scan and overwrites the return value. -/
theorem escape_counterexample :
    Escaped (1 * 1) [Particle.at 5 0 0, Particle.at 5 0 0] 0 ∧
    ∃ s', integrate Externals.still 2
        (Sim.ofParticles [Particle.at 5 0 0, Particle.at 5 0 0] 1) (5 / 2) 0 0 1 1 =
        some (s', 3) ∧
      s'.particles = [Particle.at 5 0 0, Particle.at 5 0 0] ∧ (3 : Int) ≠ 2 := by
  refine ⟨by decide!, ?_⟩
  have h : (integrate Externals.still 2
        (Sim.ofParticles [Particle.at 5 0 0, Particle.at 5 0 0] 1) (5 / 2) 0 0 1 1).map
      (fun x => (x.2, x.1.particles)) =
      some (3, [Particle.at 5 0 0, Particle.at 5 0 0]) := by decide!
  cases ho : integrate Externals.still 2
        (Sim.ofParticles [Particle.at 5 0 0, Particle.at 5 0 0] 1) (5 / 2) 0 0 1 1 with
  | none =>
    rw [ho] at h
    simp at h
  | some x =>
    rw [ho] at h
    simp only [Option.map_some', Option.some.injEq, Prod.mk.injEq] at h
    exact ⟨x.1, by rw [← h.1], h.2, by decide⟩

/-! ## C4: which pair is recorded -/

/-- C4 (as amended). When `integrate` returns 3, the indices stored in
`closeEncounterPi` / `closeEncounterPj` are those of the LAST pair of real
particles that passes the test `r2 < minD2` in the scan order of the final
post-step state (outer `i` ascending over `0..N-N_megno-1`, inner `j` ascending
over `0..i-1`): every passing pair comes at or before it, so a pair found later
in the same scan overwrites an earlier one. -/
theorem close_encounter_last_pair (E : Externals) (fuel : Nat) (s : Sim) (T : ℚ)
    (ex keep : Int) (maxR minD : ℚ) (s' : Sim)
    (h : integrate E fuel s T ex keep maxR minD = some (s', 3)) :
    ∃ r, integrate_loop E ex maxR minD fuel (integrate_start T keep s) = some r ∧
      ∃ i j : Nat, s'.closeEncounterPi = (i : Int) ∧ s'.closeEncounterPj = (j : Int) ∧
        j < i ∧ i < r.sim.nreal ∧ ClosePair (minD * minD) r.sim.particles i j ∧
        ∀ i' j', j' < i' → i' < r.sim.nreal → ClosePair (minD * minD) r.sim.particles i' j' →
          i' < i ∨ (i' = i ∧ j' ≤ j) := by
  obtain ⟨r, hloop, hfin⟩ := integrate_some E fuel s T ex keep maxR minD s' 3 h
  have hret : r.ret_value = 3 := (Prod.mk.inj hfin).2
  have hpi : s'.closeEncounterPi = r.sim.closeEncounterPi := by
    rw [← (Prod.mk.inj hfin).1]
    rfl
  have hpj : s'.closeEncounterPj = r.sim.closeEncounterPj := by
    rw [← (Prod.mk.inj hfin).1]
    rfl
  refine ⟨r, hloop, ?_⟩
  rcases integrate_scanInv E fuel s T ex keep maxR minD r hloop with
    ⟨hne, _⟩ | ⟨_, _, i, j, hi, hj, hji, hin, hcl, hmax⟩
  · exact absurd hret hne
  · exact ⟨i, j, by rw [hpi, hi], by rw [hpj, hj], hji, hin, hcl, hmax⟩

/-- Witness for `close_encounter_last_pair`: three particles at rest at the
origin with `minD = 1`; the call returns 3. -/
theorem close_encounter_last_pair_witness :
    ∃ s', integrate Externals.still 2
        (Sim.ofParticles [Particle.at 0 0 0, Particle.at 0 0 0, Particle.at 0 0 0] 1)
        (5 / 2) 0 0 0 1 = some (s', 3) ∧
      ∃ r, integrate_loop Externals.still 0 0 1 2 (integrate_start (5 / 2) 0
          (Sim.ofParticles [Particle.at 0 0 0, Particle.at 0 0 0, Particle.at 0 0 0] 1)) =
          some r ∧
        ∃ i j : Nat, s'.closeEncounterPi = (i : Int) ∧ s'.closeEncounterPj = (j : Int) ∧
          j < i ∧ i < r.sim.nreal ∧ ClosePair (1 * 1) r.sim.particles i j ∧
          ∀ i' j', j' < i' → i' < r.sim.nreal → ClosePair (1 * 1) r.sim.particles i' j' →
            i' < i ∨ (i' = i ∧ j' ≤ j) := by
  obtain ⟨s', h, _, _⟩ := returned_pair
    (show (integrate Externals.still 2
        (Sim.ofParticles [Particle.at 0 0 0, Particle.at 0 0 0, Particle.at 0 0 0] 1)
        (5 / 2) 0 0 0 1).map
          (fun x => (x.2, x.1.closeEncounterPi, x.1.closeEncounterPj)) = some (3, 2, 1)
      by decide!)
  exact ⟨s', h, close_encounter_last_pair Externals.still 2 _ (5 / 2) 0 0 0 1 s' h⟩

/-- C4 (as stated) fails on the code. Three particles at rest at the origin
with `minD = 1`: the first pair of the scan, `(1, 0)`, passes the test, and the
call returns 3 with the pair `(2, 1)` recorded, the last one of the scan. -/
theorem close_encounter_first_pair_counterexample :
    ClosePair (1 * 1) [Particle.at 0 0 0, Particle.at 0 0 0, Particle.at 0 0 0] 1 0 ∧
    ∃ s', integrate Externals.still 2
        (Sim.ofParticles [Particle.at 0 0 0, Particle.at 0 0 0, Particle.at 0 0 0] 1)
        (5 / 2) 0 0 0 1 = some (s', 3) ∧
      s'.closeEncounterPi = 2 ∧ s'.closeEncounterPj = 1 ∧
      ¬ (s'.closeEncounterPi = 1 ∧ s'.closeEncounterPj = 0) := by
  refine ⟨by decide!, ?_⟩
  obtain ⟨s', h, hpi, hpj⟩ := returned_pair
    (show (integrate Externals.still 2
        (Sim.ofParticles [Particle.at 0 0 0, Particle.at 0 0 0, Particle.at 0 0 0] 1)
        (5 / 2) 0 0 0 1).map
          (fun x => (x.2, x.1.closeEncounterPi, x.1.closeEncounterPj)) = some (3, 2, 1)
      by decide!)
  refine ⟨s', h, hpi, hpj, ?_⟩
  rw [hpi, hpj]
  decide

/-! ## C5: soundness of the return value 3 -/

/-- C5. Whenever `integrate` returns 3, `minD` is nonzero and the recorded
indices satisfy `0 ≤ Pj < Pi < N - N_megno`, and the two particles at these
indices in the post-step state that the last scan read have squared distance
below `minD²`; whenever it returns another value, `closeEncounterPi` and
`closeEncounterPj` are as they were at entry. Consequently a call that takes a
first step (`t < T`, `N > 0`) after which the two real particles (there are
exactly two) are closer than `minD` returns 3 with `Pi = 1`, `Pj = 0`. -/
theorem close_encounter_sound (E : Externals) (s : Sim) (T : ℚ) (ex keep : Int)
    (maxR minD : ℚ) :
    (∀ fuel s' ret, integrate E fuel s T ex keep maxR minD = some (s', ret) →
      (ret = 3 → minD ≠ 0 ∧ 0 ≤ s'.closeEncounterPj ∧
        s'.closeEncounterPj < s'.closeEncounterPi ∧
        s'.closeEncounterPi < s'.N - s'.N_megno ∧
        ∃ r, integrate_loop E ex maxR minD fuel (integrate_start T keep s) = some r ∧
          dist2 (r.sim.particles.getD s'.closeEncounterPi.toNat Particle.zero)
            (r.sim.particles.getD s'.closeEncounterPj.toNat Particle.zero) < minD * minD) ∧
      (ret ≠ 3 → s'.closeEncounterPi = s.closeEncounterPi ∧
        s'.closeEncounterPj = s.closeEncounterPj)) ∧
    (s.t < T → 0 < s.N → s.N - s.N_megno = 2 →
      ClosePair (minD * minD) (pre_scan E ex (integrate_start T keep s)).sim.particles 1 0 →
      ∀ fuel, ∃ s', integrate E (fuel + 2) s T ex keep maxR minD = some (s', 3) ∧
        s'.closeEncounterPi = 1 ∧ s'.closeEncounterPj = 0) := by
  constructor
  · intro fuel s' ret h
    obtain ⟨r, hloop, hfin⟩ := integrate_some E fuel s T ex keep maxR minD s' ret h
    have hret : r.ret_value = ret := (Prod.mk.inj hfin).2
    have hpi : s'.closeEncounterPi = r.sim.closeEncounterPi := by
      rw [← (Prod.mk.inj hfin).1]
      rfl
    have hpj : s'.closeEncounterPj = r.sim.closeEncounterPj := by
      rw [← (Prod.mk.inj hfin).1]
      rfl
    have hN : s'.N = r.sim.N := by
      rw [← (Prod.mk.inj hfin).1]
      rfl
    have hM : s'.N_megno = r.sim.N_megno := by
      rw [← (Prod.mk.inj hfin).1]
      rfl
    rcases integrate_scanInv E fuel s T ex keep maxR minD r hloop with
      ⟨hne, hi, hj⟩ | ⟨h3, h0, i, j, hi, hj, hji, hin, hcl, _⟩
    · refine ⟨fun h3 => absurd (hret.trans h3) hne, fun _ => ?_⟩
      rw [hpi, hpj]
      exact ⟨hi, hj⟩
    · refine ⟨fun _ => ?_, fun hne => absurd (hret.symm.trans h3) hne⟩
      rw [hpi, hpj, hi, hj, hN, hM]
      unfold Sim.nreal at hin
      refine ⟨h0, by omega, by omega, by omega, r, hloop, ?_⟩
      simp only [Int.toNat_ofNat]
      exact hcl
  · intro ht hN h2 hcl fuel
    obtain ⟨fN, fM, _, _⟩ := integrate_start_counts s T keep
    have hn : (pre_scan E ex (integrate_start T keep s)).sim.nreal = 2 := by
      rw [pre_scan_nreal]
      unfold Sim.nreal
      rw [fN, fM, h2]
      rfl
    have hbody : ∃ ret, loop_body E ex maxR minD (integrate_start T keep s) =
        ({ pre_scan E ex (integrate_start T keep s) with ret_value := ret } : Run).found 1 0 := by
      obtain ⟨ret, he⟩ := escape_check_frame maxR (pre_scan E ex (integrate_start T keep s))
      rw [loop_body_eq]
      rcases scans_cases maxR minD (pre_scan E ex (integrate_start T keep s)) with
        ⟨hno, _⟩ | ⟨_, i, j, hji, hin, _, _, h⟩
      · rcases hno with hz | hno
        · unfold ClosePair at hcl
          rw [hz] at hcl
          have hnn : 0 ≤ dist2
              ((pre_scan E ex (integrate_start T keep s)).sim.particles.getD 1 Particle.zero)
              ((pre_scan E ex (integrate_start T keep s)).sim.particles.getD 0 Particle.zero) := by
            exact add_nonneg (add_nonneg (mul_self_nonneg _) (mul_self_nonneg _))
              (mul_self_nonneg _)
          linarith
        · exact absurd hcl (hno 1 0 Nat.zero_lt_one (by rw [hn]; decide))
      · rw [hn] at hin
        have hi1 : i = 1 := by omega
        have hj0 : j = 0 := by omega
        rw [h, he, hi1, hj0]
        exact ⟨ret, rfl⟩
    obtain ⟨ret, hb⟩ := hbody
    have hone := integrate_one_step E s T ex keep maxR minD ht hN
      (by rw [hb]; exact (by decide : (3 : Int) ≠ 0)) fuel
    refine ⟨(integrate_finish E s.integrator_whfast_synchronize_manually
      s.integrator_whfast_persistent_particles
      (loop_body E ex maxR minD (integrate_start T keep s))).1, ?_, ?_, ?_⟩
    · rw [hone, hb]
      rfl
    · rw [hb]
      rfl
    · rw [hb]
      rfl

/-- Witness for `close_encounter_sound`: two particles at rest at distance 1/2
with `minD = 1`; the first call returns 3 with the pair `(1, 0)`. -/
theorem close_encounter_sound_witness :
    ∃ s', integrate Externals.still 2
        (Sim.ofParticles [Particle.at 0 0 0, Particle.at (1 / 2) 0 0] 1) (5 / 2) 0 0 0 1 =
        some (s', 3) ∧ s'.closeEncounterPi = 1 ∧ s'.closeEncounterPj = 0 ∧
      (1 : ℚ) ≠ 0 ∧ 0 ≤ s'.closeEncounterPj ∧ s'.closeEncounterPj < s'.closeEncounterPi ∧
      s'.closeEncounterPi < s'.N - s'.N_megno := by
  obtain ⟨s', h, hi, hj⟩ := (close_encounter_sound Externals.still
    (Sim.ofParticles [Particle.at 0 0 0, Particle.at (1 / 2) 0 0] 1) (5 / 2) 0 0 0 1).2
    (by decide!) (by decide!) (by decide!) (by decide!) 0
  obtain ⟨h0, ha, hb, hc, _⟩ := ((close_encounter_sound Externals.still
    (Sim.ofParticles [Particle.at 0 0 0, Particle.at (1 / 2) 0 0] 1) (5 / 2) 0 0 0 1).1
    2 s' 3 h).1 rfl
  exact ⟨s', h, hi, hj, h0, ha, hb, hc⟩

/-! ## C6: no particles -/

/-- C6. With a particle count `N ≤ 0`, `rebound_step` returns with the whole
state as it was (no call of `integrator_part1`, of the gravity evaluation, of
the force hook or of `integrator_part2`, and `t` unchanged), and `integrate`
entered with `t < T` returns 1 with `t` unchanged, having made no call but the
final `integrator_synchronize`. -/
theorem zero_particles (E : Externals) (s : Sim) (hN : s.N ≤ 0) :
    rebound_step E s = s ∧
    (∀ (T : ℚ) (ex keep : Int) (maxR minD : ℚ) (fuel : Nat), s.t < T →
      ∃ s', integrate E (fuel + 1) s T ex keep maxR minD = some (s', 1) ∧
        s'.t = s.t ∧ s'.log = s.log ++ [Op.synchronize]) := by
  constructor
  · unfold rebound_step
    rw [if_pos hN]
  · intro T ex keep maxR minD fuel ht
    obtain ⟨a, c, hs, _⟩ := integrate_start_eq T keep s
    have hc := loop_cond_start s T keep ht
    have hN' : (integrate_start T keep s).sim.N ≤ 0 := by
      rw [(integrate_start_counts s T keep).1]
      exact hN
    unfold integrate integrate_loop
    rw [if_pos hc, if_pos hN', hs]
    exact ⟨_, rfl, rfl, rfl⟩

/-- Witness for `zero_particles`: the initial state, which has `N = 0`. -/
theorem zero_particles_witness :
    rebound_step Externals.still Sim.initial = Sim.initial ∧
    ∃ s', integrate Externals.still 1 Sim.initial 1 0 0 0 0 = some (s', 1) ∧
      s'.t = Sim.initial.t ∧ s'.log = Sim.initial.log ++ [Op.synchronize] :=
  ⟨(zero_particles Externals.still Sim.initial (by decide)).1,
   (zero_particles Externals.still Sim.initial (by decide)).2 1 0 0 0 0 0 (by decide!)⟩

/-! ## C7: shadow particles -/

theorem radius2_samePos {p q : Particle} (h : SamePos p q) : radius2 p = radius2 q := by
  unfold radius2
  rw [h.1, h.2.1, h.2.2]

theorem dist2_samePos {p q p' q' : Particle} (h : SamePos p q) (h' : SamePos p' q') :
    dist2 p p' = dist2 q q' := by
  unfold dist2
  simp only
  rw [h.1, h.2.1, h.2.2, h'.1, h'.2.1, h'.2.2]

/-- C7. The escape scan and the close-encounter scan read only the indices
`i < N - N_megno`: replacing the particle array by one with the same positions
at these indices (the shadow particles moved at will) changes neither the
return value left by the scans nor the recorded pair; and when no real particle
is beyond `maxR` and no pair of real particles is within `minD`, the scans
leave the state as it was, whatever the shadow particles do. -/
theorem shadows_not_scanned (maxR minD : ℚ) (r : Run) (qs : List Particle)
    (hsame : ∀ i, i < r.sim.nreal →
      SamePos (qs.getD i Particle.zero) (r.sim.particles.getD i Particle.zero)) :
    ((close_check minD (escape_check maxR (r.withParticles qs))).ret_value =
        (close_check minD (escape_check maxR r)).ret_value ∧
      (close_check minD (escape_check maxR (r.withParticles qs))).sim.closeEncounterPi =
        (close_check minD (escape_check maxR r)).sim.closeEncounterPi ∧
      (close_check minD (escape_check maxR (r.withParticles qs))).sim.closeEncounterPj =
        (close_check minD (escape_check maxR r)).sim.closeEncounterPj) ∧
    ((∀ i, i < r.sim.nreal → ¬ Escaped (maxR * maxR) r.sim.particles i) →
      (∀ i j, j < i → i < r.sim.nreal → ¬ ClosePair (minD * minD) r.sim.particles i j) →
      close_check minD (escape_check maxR r) = r ∧
      close_check minD (escape_check maxR (r.withParticles qs)) = r.withParticles qs) := by
  have hesc : ∀ i, i < r.sim.nreal →
      (Escaped (maxR * maxR) qs i ↔ Escaped (maxR * maxR) r.sim.particles i) := by
    intro i hi
    unfold Escaped
    rw [radius2_samePos (hsame i hi)]
  have hclose : ∀ i j, j < i → i < r.sim.nreal →
      (ClosePair (minD * minD) qs i j ↔ ClosePair (minD * minD) r.sim.particles i j) := by
    intro i j hji hi
    unfold ClosePair
    rw [dist2_samePos (hsame i hi) (hsame j (lt_trans hji hi))]
  have hex : (∃ i, i < r.sim.nreal ∧ Escaped (maxR * maxR) qs i) ↔
      (∃ i, i < r.sim.nreal ∧ Escaped (maxR * maxR) r.sim.particles i) := by
    constructor
    · rintro ⟨i, hi, he⟩
      exact ⟨i, hi, (hesc i hi).mp he⟩
    · rintro ⟨i, hi, he⟩
      exact ⟨i, hi, (hesc i hi).mpr he⟩
  have he' : escape_check maxR (r.withParticles qs) = (escape_check maxR r).withParticles qs := by
    rw [escape_check_eq, escape_check_eq]
    by_cases hc : maxR ≠ 0 ∧ ∃ i, i < r.sim.nreal ∧ Escaped (maxR * maxR) r.sim.particles i
    · rw [if_pos hc, if_pos ⟨hc.1, hex.mpr hc.2⟩]
      rfl
    · rw [if_neg hc, if_neg (fun h => hc ⟨h.1, hex.mp h.2⟩)]
  obtain ⟨ret, he⟩ := escape_check_frame maxR r
  constructor
  · rcases scans_cases maxR minD r with ⟨hno, h⟩ | ⟨h0, i, j, hji, hin, hcl, hmax, h⟩ <;>
      rcases scans_cases maxR minD (r.withParticles qs) with
        ⟨hno', h'⟩ | ⟨h0', i', j', hji', hin', hcl', hmax', h'⟩
    · rw [h, h', he', he]
      exact ⟨rfl, rfl, rfl⟩
    · rcases hno with hz | hno
      · exact absurd hz h0'
      · exact absurd ((hclose i' j' hji' hin').mp hcl') (hno i' j' hji' hin')
    · rcases hno' with hz | hno'
      · exact absurd hz h0
      · exact absurd ((hclose i j hji hin).mpr hcl) (hno' i j hji hin)
    · have h1 := hmax i' j' hji' hin' ((hclose i' j' hji' hin').mp hcl')
      have h2 := hmax' i j hji hin ((hclose i j hji hin).mpr hcl)
      have hi : i' = i := by omega
      have hj : j' = j := by omega
      rw [h, h', he', he, hi, hj]
      exact ⟨rfl, rfl, rfl⟩
  · intro hnoesc hnoclose
    have her : escape_check maxR r = r := by
      rw [escape_check_eq]
      exact if_neg (fun hc => by
        obtain ⟨_, i, hi, hesc'⟩ := hc
        exact hnoesc i hi hesc')
    constructor
    · rcases scans_cases maxR minD r with ⟨_, h⟩ | ⟨_, i, j, hji, hin, hcl, _, _⟩
      · rw [h, her]
      · exact absurd hcl (hnoclose i j hji hin)
    · rcases scans_cases maxR minD (r.withParticles qs) with
        ⟨_, h'⟩ | ⟨_, i', j', hji', hin', hcl', _, _⟩
      · rw [h', he', her]
      · exact absurd ((hclose i' j' hji' hin').mp hcl') (hnoclose i' j' hji' hin')

/-- Witness for `shadows_not_scanned`: the shadow particle of `shadowRun` is
beyond `maxR = 1`, and moved onto the real particle it is within `minD = 1` of
it; in both states the scans leave the return value 0. -/
theorem shadows_not_scanned_witness :
    Escaped (1 * 1) shadowRun.sim.particles 1 ∧
    ClosePair (1 * 1) [Particle.at 0 0 0, Particle.at 0 0 0] 1 0 ∧
    (close_check 1 (escape_check 1 shadowRun)).ret_value = 0 ∧
    (close_check 1 (escape_check 1
        (shadowRun.withParticles [Particle.at 0 0 0, Particle.at 0 0 0]))).ret_value =
      (close_check 1 (escape_check 1 shadowRun)).ret_value :=
  ⟨by decide!, by decide!, by decide!,
   (shadows_not_scanned 1 1 shadowRun [Particle.at 0 0 0, Particle.at 0 0 0]
      (fun i hi => by
        have hn : shadowRun.sim.nreal = 1 := by decide
        have hi0 : i = 0 := by omega
        rw [hi0]
        exact ⟨rfl, rfl, rfl⟩)).1.1⟩

/-! ## C8: the timestep on return -/

theorem dtInv_step (E : Externals) (ex : Int) (maxR minD dt0 : ℚ) (r : Run)
    (hI : DtInv ex dt0 r) (hc : loop_cond r) : DtInv ex dt0 (loop_body E ex maxR minD r) := by
  obtain ⟨hdld, hdt⟩ := hI
  obtain ⟨ft, ftmax, _, _, _, _, hbr⟩ := loop_body_fields E ex maxR minD r
  have hlt := hc.1
  unfold DtInv
  rw [ft, ftmax]
  rcases hbr with ⟨_, hex, fdt, _, fdld⟩ | ⟨hno, fdt, _, fdld⟩
  · rw [fdt, fdld]
    exact ⟨hdld, fun _ => Or.inr ⟨hex, by ring⟩⟩
  · rw [fdt, fdld]
    rcases hdt hlt with h | ⟨hex, h⟩
    · exact ⟨h, fun _ => Or.inl h⟩
    · exfalso
      apply hno
      refine ⟨?_, hex⟩
      rw [h]
      have : 0 < r.sim.dt := by linarith
      linarith

/-- C8. For every call `integrate(T, exactFinishTime=1, ...)` that returns, with
any return value, `dt` on return equals `dt` at entry (a cycle leaves `dt`
unchanged): the last full timestep, not the shrunk step `tmax - t` that the
loop assigned on the way. -/
theorem timestep_restored (E : Externals) (fuel : Nat) (s : Sim) (T : ℚ) (keep : Int)
    (maxR minD : ℚ) (s' : Sim) (ret : Int)
    (h : integrate E fuel s T 1 keep maxR minD = some (s', ret)) : s'.dt = s.dt := by
  obtain ⟨r, hloop, hfin⟩ := integrate_some E fuel s T 1 keep maxR minD s' ret h
  have hdt : s'.dt = r.dt_last_done := by
    rw [← (Prod.mk.inj hfin).1]
  have hstart : DtInv 1 s.dt (integrate_start T keep s) := by
    obtain ⟨a, c, hs, _⟩ := integrate_start_eq T keep s
    rw [hs]
    exact ⟨rfl, fun _ => Or.inl rfl⟩
  rw [hdt]
  rcases integrate_loop_exit E 1 maxR minD (DtInv 1 s.dt)
      (fun r hI hc _ => dtInv_step E 1 maxR minD s.dt r hI hc) fuel _ r hstart hloop with
    ⟨hI, _⟩ | ⟨r0, hI, _, _, hr⟩
  · exact hI.1
  · rw [hr]
    exact hI.1

/-- Witness for `timestep_restored`: from `t = 0` with `dt = 1` to `T = 5/2`;
the loop ends with the shrunk `dt = 0`, the call returns with `dt = 1`. -/
theorem timestep_restored_witness :
    (integrate_loop Externals.still 1 0 0 4
        (integrate_start (5 / 2) 0 (Sim.ofParticles [Particle.at 0 0 0] 1))).map
      (fun r => r.sim.dt) = some 0 ∧
    ∃ s', integrate Externals.still 4 (Sim.ofParticles [Particle.at 0 0 0] 1) (5 / 2)
        1 0 0 0 = some (s', 0) ∧ s'.dt = (Sim.ofParticles [Particle.at 0 0 0] 1).dt := by
  refine ⟨by decide!, ?_⟩
  obtain ⟨s', h, _⟩ := returned_time
    (show (integrate Externals.still 4 (Sim.ofParticles [Particle.at 0 0 0] 1) (5 / 2)
      1 0 0 0).map (fun x => (x.2, x.1.t)) = some (0, 5 / 2) by decide!)
  exact ⟨s', h, timestep_restored Externals.still 4 _ (5 / 2) 0 0 0 s' 0 h⟩

/-! ## C9: the exit protocol -/

/-- C9. For every call of `integrate` that returns, with any return value, the
last call made is `integrator_synchronize`, and on return
`integrator_whfast_synchronize_manually` and
`integrator_whfast_persistent_particles` have the values they had at entry; up
to the end of the loop both held the forced value (0 when `N_megno ≠ 0` or
`keepSynchronized ≠ 0`, else 1). -/
theorem exit_protocol (E : Externals) (fuel : Nat) (s : Sim) (T : ℚ) (ex keep : Int)
    (maxR minD : ℚ) (s' : Sim) (ret : Int)
    (h : integrate E fuel s T ex keep maxR minD = some (s', ret)) :
    s'.log.getLast? = some Op.synchronize ∧
    s'.integrator_whfast_synchronize_manually = s.integrator_whfast_synchronize_manually ∧
    s'.integrator_whfast_persistent_particles = s.integrator_whfast_persistent_particles ∧
    ∃ r, integrate_loop E ex maxR minD fuel (integrate_start T keep s) = some r ∧
      r.sim.integrator_whfast_synchronize_manually =
        (if s.N_megno ≠ 0 ∨ keep ≠ 0 then 0 else 1) ∧
      r.sim.integrator_whfast_persistent_particles =
        (if s.N_megno ≠ 0 ∨ keep ≠ 0 then 0 else 1) := by
  obtain ⟨r, hloop, hfin⟩ := integrate_some E fuel s T ex keep maxR minD s' ret h
  have hs' := (Prod.mk.inj hfin).1
  refine ⟨?_, by rw [← hs'], by rw [← hs'], r, hloop, ?_⟩
  · rw [← hs']
    simp [integrate_finish, integrator_synchronize]
  · obtain ⟨a, c, hs, ha⟩ := integrate_start_eq T keep s
    have hstart : (integrate_start T keep s).sim.integrator_whfast_synchronize_manually = a ∧
        (integrate_start T keep s).sim.integrator_whfast_persistent_particles = a := by
      rw [hs]
      exact ⟨rfl, rfl⟩
    rw [← ha]
    rcases integrate_loop_exit E ex maxR minD
        (fun r => r.sim.integrator_whfast_synchronize_manually = a ∧
          r.sim.integrator_whfast_persistent_particles = a)
        (fun r hI _ _ => by
          obtain ⟨_, _, _, _, f1, f2, _⟩ := loop_body_fields E ex maxR minD r
          exact ⟨f1.trans hI.1, f2.trans hI.2⟩) fuel _ r hstart hloop with
      ⟨hI, _⟩ | ⟨r0, hI, _, _, hr⟩
    · exact hI
    · rw [hr]
      exact hI

/-- Witness for `exit_protocol`: a call with `keepSynchronized = 1` entered with
the two flags at 7 and 9; the loop ends with both at 0, the call returns with 7
and 9. -/
theorem exit_protocol_witness :
    (integrate_loop Externals.still 0 0 0 4 (integrate_start (5 / 2) 1
        { Sim.ofParticles [Particle.at 0 0 0] 1 with
          integrator_whfast_synchronize_manually := 7,
          integrator_whfast_persistent_particles := 9 })).map
      (fun r => (r.sim.integrator_whfast_synchronize_manually,
        r.sim.integrator_whfast_persistent_particles)) = some (0, 0) ∧
    ∃ s', integrate Externals.still 4
        { Sim.ofParticles [Particle.at 0 0 0] 1 with
          integrator_whfast_synchronize_manually := 7,
          integrator_whfast_persistent_particles := 9 } (5 / 2) 0 1 0 0 = some (s', 0) ∧
      s'.log.getLast? = some Op.synchronize ∧
      s'.integrator_whfast_synchronize_manually = 7 ∧
      s'.integrator_whfast_persistent_particles = 9 := by
  refine ⟨by decide!, ?_⟩
  obtain ⟨s', h, _⟩ := returned_time
    (show (integrate Externals.still 4
        { Sim.ofParticles [Particle.at 0 0 0] 1 with
          integrator_whfast_synchronize_manually := 7,
          integrator_whfast_persistent_particles := 9 } (5 / 2) 0 1 0 0).map
      (fun x => (x.2, x.1.t)) = some (0, 3) by decide!)
  obtain ⟨h1, h2, h3, _⟩ := exit_protocol Externals.still 4 _ (5 / 2) 0 1 0 0 s' 0 h
  exact ⟨s', h, h1, h2, h3⟩

/-! ## C10: reset -/

/-- C10 (as amended). For every prior state, after `reset`: `t = 0`, `tmax = 0`,
`dt = 0.01`, `G = 1`, `softening = 0`, `timing = 0`, `N = 0` with an empty
particle store, `N_megno = 0`; the two last-close-encounter indices are not
assigned by `reset` and keep the values they had. -/
theorem reset_defaults (s : Sim) :
    (reset s).t = 0 ∧ (reset s).tmax = 0 ∧ (reset s).dt = 1 / 100 ∧ (reset s).G = 1 ∧
    (reset s).softening = 0 ∧ (reset s).timing = 0 ∧ (reset s).N = 0 ∧
    (reset s).particles = [] ∧ (reset s).N_megno = 0 ∧
    (reset s).closeEncounterPi = s.closeEncounterPi ∧
    (reset s).closeEncounterPj = s.closeEncounterPj :=
  ⟨rfl, rfl, rfl, rfl, rfl, rfl, rfl, rfl, rfl, rfl, rfl⟩

/-- C10 (as stated) fails on the code. After a close encounter of the pair
`(2, 1)` has been recorded, `reset` leaves the two indices at 2 and 1, not at
their initial value -1. -/
theorem reset_counterexample :
    (reset { Sim.initial with closeEncounterPi := 2, closeEncounterPj := 1 }).closeEncounterPi = 2 ∧
    (reset { Sim.initial with closeEncounterPi := 2, closeEncounterPj := 1 }).closeEncounterPj = 1 ∧
    (reset { Sim.initial with closeEncounterPi := 2, closeEncounterPj := 1 }).closeEncounterPi ≠ -1 ∧
    Sim.initial.closeEncounterPi = -1 := by
  decide

end Rebound
